import Mathlib

/-!
# terraform-provider-external: the external-program protocol executor

A shallow embedding of `internal/provider/run_program.go`, `resource.go` and
`data_source.go`.

* Go strings are modelled as `String` (sequences of Unicode scalar values, that
  is, valid UTF-8 text); `map[string]string` and the schema's string maps are
  association lists read with `GoMap.get`.
* The resource data is the record of the attributes the executor touches;
  `ResourceData.Set` stores a map the way the SDK's flat attribute map does.
* `encoding/json` (`json.Marshal` of a string map, `json.Unmarshal` into a
  `map[string]string`) is modelled concretely, following the documented
  behaviour of the Go standard library.
* `os/exec` and the operating system are an explicit `World`: executable
  lookup and process execution are functions of the history of earlier events,
  and every interaction of the provider with them is recorded as an `Event`.
-/

namespace ExternalProvider

/-! ## Go maps with string keys and string values -/

/-- A Go map from strings to strings, as an association list. -/
abbrev GoMap := List (String × String)

/-- Map read `m[k]` together with its presence flag. -/
def GoMap.get : GoMap → String → Option String
  | [], _ => none
  | (k, v) :: rest, key => if k = key then some v else GoMap.get rest key

/-- Map write `m[k] = v`: an existing key is overwritten, a new key is added. -/
def GoMap.set : GoMap → String → String → GoMap
  | [], key, val => [(key, val)]
  | (k, v) :: rest, key, val =>
    if k = key then (k, val) :: rest else (k, v) :: GoMap.set rest key val

/-- Lexicographic comparison of two strings by code point, which is the order
of `strings.Compare` on valid UTF-8: `a ≤ b`. -/
def charsLE : List Char → List Char → Bool
  | [], _ => true
  | _ :: _, [] => false
  | a :: as, b :: bs =>
    if a.toNat < b.toNat then true
    else if b.toNat < a.toNat then false
    else charsLE as bs

/-- Ordering of map entries by key, used when a map is marshalled. -/
def keyLE (a b : String × String) : Prop := charsLE a.1.data b.1.data = true

instance : DecidableRel keyLE := fun a b =>
  inferInstanceAs (Decidable (charsLE a.1.data b.1.data = true))

/-! ## encoding/json: Marshal -/

/-- Lower-case hexadecimal digit of `n % 16` (the table `hex` of encode.go). -/
def hexDigit (n : Nat) : Char :=
  "0123456789abcdef".data.getD (n % 16) '0'

/-- Escaping of one character inside a JSON string literal, with HTML escaping
on as in `json.Marshal`: quote and backslash get a backslash, newline, carriage
return and tab their short escapes, the other control characters and
`<`, `>`, `&` a `\u00XX` escape, U+2028 and U+2029 a `\u202X` escape, and every
other character is copied. (Go 1.22 and later write the short escapes `\b` and
`\f` for U+0008 and U+000C; the reader below decodes both spellings to the same
character.) -/
def escapeChar (c : Char) : List Char :=
  if c = '\\' ∨ c = '"' then ['\\', c]
  else if c = '\n' then ['\\', 'n']
  else if c = '\r' then ['\\', 'r']
  else if c = '\t' then ['\\', 't']
  else if c.toNat < 0x20 ∨ c = '<' ∨ c = '>' ∨ c = '&' then
    ['\\', 'u', '0', '0', hexDigit (c.toNat / 16), hexDigit c.toNat]
  else if c.toNat = 0x2028 ∨ c.toNat = 0x2029 then
    ['\\', 'u', '2', '0', '2', hexDigit c.toNat]
  else [c]

/-- Characters of a string literal between its quotes. -/
def escapeChars : List Char → List Char
  | [] => []
  | c :: cs => escapeChar c ++ escapeChars cs

/-- JSON string literal for a Go string. -/
def encodeString (s : String) : List Char :=
  '"' :: (escapeChars s.data ++ ['"'])

/-- The members of an object, `"key":"value"` separated by commas. -/
def encodeMembers : List (String × String) → List Char
  | [] => []
  | [(k, v)] => encodeString k ++ ':' :: encodeString v
  | (k, v) :: rest => encodeString k ++ ':' :: (encodeString v ++ ',' :: encodeMembers rest)

/-- Keys of a map in the order `json.Marshal` writes them. -/
def sortedEntries (m : GoMap) : List (String × String) :=
  List.insertionSort keyLE m

/-- `json.Marshal(query)` for a map whose values are strings: a compact object
with the keys sorted; an empty map gives `{}`. It never fails on such a map. -/
def jsonMarshal (m : GoMap) : Except String String :=
  .ok (String.mk ('{' :: (encodeMembers (sortedEntries m) ++ ['}'])))

/-! ## encoding/json: Unmarshal -/

/-- A parsed JSON document. -/
inductive JValue where
  | null
  | bool (b : Bool)
  | number (text : List Char)
  | str (s : String)
  | array (items : List JValue)
  | object (members : List (String × JValue))

/-- JSON whitespace (`isSpace` of scanner.go). -/
def isSpace (c : Char) : Bool :=
  c = ' ' || c = '\t' || c = '\r' || c = '\n'

/-- Drops leading whitespace. -/
def skipSpace : List Char → List Char
  | [] => []
  | c :: cs => if isSpace c then skipSpace cs else c :: cs

/-- Value of a hexadecimal digit, in either case. -/
def hexVal (c : Char) : Option Nat :=
  if '0'.toNat ≤ c.toNat ∧ c.toNat ≤ '9'.toNat then some (c.toNat - '0'.toNat)
  else if 'a'.toNat ≤ c.toNat ∧ c.toNat ≤ 'f'.toNat then some (c.toNat - 'a'.toNat + 10)
  else if 'A'.toNat ≤ c.toNat ∧ c.toNat ≤ 'F'.toNat then some (c.toNat - 'A'.toNat + 10)
  else none

/-- The four hexadecimal digits of a `\u` escape (`getu4` of decode.go). -/
def hex4 (a b c d : Char) : Option Nat :=
  match hexVal a, hexVal b, hexVal c, hexVal d with
  | some x, some y, some z, some w => some (((x * 16 + y) * 16 + z) * 16 + w)
  | _, _, _, _ => none

/-- The replacement character U+FFFD. -/
def replacementChar : Char := Char.ofNat 0xfffd

/-- The character a one-letter escape stands for (`stateInStringEsc` of
scanner.go accepts exactly these; `u` is handled apart). -/
def simpleEscape (e : Char) : Option Char :=
  if e = '"' then some '"'
  else if e = '\\' then some '\\'
  else if e = '/' then some '/'
  else if e = 'b' then some (Char.ofNat 8)
  else if e = 'f' then some (Char.ofNat 12)
  else if e = 'n' then some '\n'
  else if e = 'r' then some '\r'
  else if e = 't' then some '\t'
  else none

/-- UTF-16 high (leading) surrogate. -/
def isHighSurrogate (r : Nat) : Bool := 0xd800 ≤ r && r < 0xdc00

/-- UTF-16 low (trailing) surrogate. -/
def isLowSurrogate (r : Nat) : Bool := 0xdc00 ≤ r && r < 0xe000

/-- Code point of a valid surrogate pair (`utf16.DecodeRune`). -/
def decodeSurrogates (hi lo : Nat) : Char :=
  Char.ofNat ((hi - 0xd800) * 0x400 + (lo - 0xdc00) + 0x10000)

/-- What a pending high surrogate that found no partner decodes to. -/
def flushPending (pend : Option Nat) (out : List Char) : List Char :=
  match pend with
  | some _ => replacementChar :: out
  | none => out

/-- Prepends decoded characters to the result of reading the rest. -/
def emit (pre : List Char) (r : Option (List Char × List Char)) :
    Option (List Char × List Char) :=
  r.map (fun p => (pre ++ p.1, p.2))

/-- Reads a string literal after its opening quote: the decoded text and what
follows the closing quote. A raw control character, an unknown escape or a
missing closing quote is a syntax error (`none`). `pend` is a high surrogate
read from the preceding `\u` escape: it is combined with a directly following
`\u` low surrogate and becomes U+FFFD otherwise, and a low surrogate without a
partner becomes U+FFFD as well (`unquoteBytes` of decode.go). -/
def parseStringBody : Option Nat → List Char → Option (List Char × List Char)
  | _, [] => none
  | pend, c :: cs =>
    if c = '"' then some (flushPending pend [], cs)
    else if c = '\\' then
      match cs with
      | [] => none
      | e :: cs1 =>
        if e = 'u' then
          match cs1 with
          | h1 :: h2 :: h3 :: h4 :: cs2 =>
            match hex4 h1 h2 h3 h4 with
            | none => none
            | some rr =>
              if pend.isSome ∧ isLowSurrogate rr then
                emit [decodeSurrogates (pend.getD 0) rr] (parseStringBody none cs2)
              else if isHighSurrogate rr then
                emit (flushPending pend []) (parseStringBody (some rr) cs2)
              else if isLowSurrogate rr then
                emit (flushPending pend [replacementChar]) (parseStringBody none cs2)
              else
                emit (flushPending pend [Char.ofNat rr]) (parseStringBody none cs2)
          | _ => none
        else
          match simpleEscape e with
          | some ch => emit (flushPending pend [ch]) (parseStringBody none cs1)
          | none => none
    else if c.toNat < 0x20 then none
    else emit (flushPending pend [c]) (parseStringBody none cs)

/-- Decimal digit. -/
def isDigit (c : Char) : Bool := '0'.toNat ≤ c.toNat && c.toNat ≤ '9'.toNat

/-- The longest run of leading digits and what follows it. -/
def takeDigits : List Char → List Char × List Char
  | [] => ([], [])
  | c :: cs =>
    if isDigit c then ((takeDigits cs).1.cons c, (takeDigits cs).2) else ([], c :: cs)

/-- Optional exponent of a number (`stateE`, `stateESign`, `stateE0`). -/
def parseExponent (pre cs : List Char) : Option (List Char × List Char) :=
  match cs with
  | [] => some (pre, [])
  | e :: r =>
    if e = 'e' ∨ e = 'E' then
      match r with
      | [] => none
      | s :: r1 =>
        if s = '+' ∨ s = '-' then
          if (takeDigits r1).1 = [] then none
          else some (pre ++ e :: s :: (takeDigits r1).1, (takeDigits r1).2)
        else
          if (takeDigits r).1 = [] then none
          else some (pre ++ e :: (takeDigits r).1, (takeDigits r).2)
    else some (pre, e :: r)

/-- Optional fraction of a number, then its exponent (`stateDot`, `stateDot0`). -/
def parseFraction (pre cs : List Char) : Option (List Char × List Char) :=
  match cs with
  | [] => some (pre, [])
  | c :: r =>
    if c = '.' then
      if (takeDigits r).1 = [] then none
      else parseExponent (pre ++ c :: (takeDigits r).1) (takeDigits r).2
    else parseExponent pre (c :: r)

/-- Integer part of a number after an optional sign (`state0`, `state1`). -/
def parseInteger (pre cs : List Char) : Option (List Char × List Char) :=
  match cs with
  | [] => none
  | c :: r =>
    if c = '0' then parseFraction (pre ++ [c]) r
    else if isDigit c then parseFraction (pre ++ c :: (takeDigits r).1) (takeDigits r).2
    else none

/-- A JSON number: its text and what follows it. -/
def parseNumber (cs : List Char) : Option (List Char × List Char) :=
  match cs with
  | [] => none
  | c :: r => if c = '-' then parseInteger [c] r else parseInteger [] (c :: r)

/-- Consumes the expected characters, or fails. -/
def expect : List Char → List Char → Option (List Char)
  | [], cs => some cs
  | _ :: _, [] => none
  | e :: es, c :: cs => if e = c then expect es cs else none

/-- The deepest nesting of arrays and objects the scanner accepts. -/
def maxNestingDepth : Nat := 10000

mutual

/-- Reads one JSON value. `depth` is the number of enclosing arrays and
objects; `fuel` bounds the recursion (see `parseJSON`). -/
def parseValue : Nat → Nat → List Char → Option (JValue × List Char)
  | 0, _, _ => none
  | fuel + 1, depth, cs =>
    match skipSpace cs with
    | [] => none
    | c :: rest =>
      if c = '{' then
        if maxNestingDepth < depth + 1 then none
        else
          match skipSpace rest with
          | [] => none
          | c1 :: r1 =>
            if c1 = '}' then some (JValue.object [], r1)
            else parseMembers fuel (depth + 1) (c1 :: r1) []
      else if c = '[' then
        if maxNestingDepth < depth + 1 then none
        else
          match skipSpace rest with
          | [] => none
          | c1 :: r1 =>
            if c1 = ']' then some (JValue.array [], r1)
            else parseElements fuel (depth + 1) (c1 :: r1) []
      else if c = '"' then
        (parseStringBody none rest).map (fun p => (JValue.str (String.mk p.1), p.2))
      else if c = 't' then (expect ['r', 'u', 'e'] rest).map (fun r => (JValue.bool true, r))
      else if c = 'f' then
        (expect ['a', 'l', 's', 'e'] rest).map (fun r => (JValue.bool false, r))
      else if c = 'n' then (expect ['u', 'l', 'l'] rest).map (fun r => (JValue.null, r))
      else (parseNumber (c :: rest)).map (fun p => (JValue.number p.1, p.2))

/-- Reads the members of an object from a key on, up to the closing brace. -/
def parseMembers : Nat → Nat → List Char → List (String × JValue) →
    Option (JValue × List Char)
  | 0, _, _, _ => none
  | fuel + 1, depth, cs, acc =>
    match skipSpace cs with
    | [] => none
    | c :: rest =>
      if c = '"' then
        match parseStringBody none rest with
        | none => none
        | some (k, r1) =>
          match skipSpace r1 with
          | [] => none
          | c2 :: r2 =>
            if c2 = ':' then
              match parseValue fuel depth r2 with
              | none => none
              | some (v, r3) =>
                match skipSpace r3 with
                | [] => none
                | c3 :: r4 =>
                  if c3 = ',' then parseMembers fuel depth r4 (acc ++ [(String.mk k, v)])
                  else if c3 = '}' then some (JValue.object (acc ++ [(String.mk k, v)]), r4)
                  else none
            else none
      else none

/-- Reads the elements of an array from a value on, up to the closing bracket. -/
def parseElements : Nat → Nat → List Char → List JValue → Option (JValue × List Char)
  | 0, _, _, _ => none
  | fuel + 1, depth, cs, acc =>
    match parseValue fuel depth cs with
    | none => none
    | some (v, r1) =>
      match skipSpace r1 with
      | [] => none
      | c :: r2 =>
        if c = ',' then parseElements fuel depth r2 (acc ++ [v])
        else if c = ']' then some (JValue.array (acc ++ [v]), r2)
        else none

end

/-- Parses a whole document (`checkValid` of scanner.go): one value with
optional whitespace around it; `none` is a syntax error. A recursive call of
the reader never starts before the position of its caller in the text, and at
most two nested calls start at the same position (the elements of an array and
its first element), so a fuel of twice the length of the text plus two is never
exhausted. -/
def parseJSON (cs : List Char) : Option JValue :=
  match parseValue (2 * cs.length + 2) 0 cs with
  | none => none
  | some (v, rest) => if skipSpace rest = [] then some v else none

/-- Errors of `json.Unmarshal`: a syntax error of the document, or the first
value that does not fit the Go type it is decoded into. -/
inductive UnmarshalError where
  | syntaxError
  | typeError (value : String) (goType : String)
deriving DecidableEq

deriving instance DecidableEq for Except

/-- JSON kind of a value as `UnmarshalTypeError.Value` names it. -/
def JValue.kindName : JValue → String
  | .null => "null"
  | .bool _ => "bool"
  | .number _ => "number"
  | .str _ => "string"
  | .array _ => "array"
  | .object _ => "object"

/-- Keeps the first error (`decodeState.saveError`). -/
def saveError (saved : Option UnmarshalError) (e : UnmarshalError) : Option UnmarshalError :=
  match saved with
  | some s => some s
  | none => some e

/-- Decoding of the members of an object into a `map[string]string`
(`decodeState.object` with a map target). Each member is stored under its key,
a later duplicate overwriting an earlier one. A string value is stored as it
is. A `null` value leaves the fresh element at its zero value, the empty
string, without an error (`literalStore`: null has no effect on a string). Any
other value records a type error and decoding goes on. -/
def decodeMembers : List (String × JValue) → GoMap → Option UnmarshalError →
    GoMap × Option UnmarshalError
  | [], m, err => (m, err)
  | (k, v) :: rest, m, err =>
    match v with
    | .str s => decodeMembers rest (m.set k s) err
    | .null => decodeMembers rest (m.set k "") err
    | other =>
      decodeMembers rest (m.set k "")
        (saveError err (UnmarshalError.typeError other.kindName "string"))

/-- `json.Unmarshal(data, &result)` with `result` an empty `map[string]string`.
The document is checked first and a malformed one is a syntax error. Then a
top-level object is decoded member by member, a top-level `null` sets the map
to nil without an error, and any other top-level value is a type error. -/
def jsonUnmarshal (data : String) : Except UnmarshalError GoMap :=
  match parseJSON data.data with
  | none => .error UnmarshalError.syntaxError
  | some (.object members) =>
    match decodeMembers members [] none with
    | (m, none) => .ok m
    | (_, some e) => .error e
  | some .null => .ok []
  | some other => .error (UnmarshalError.typeError other.kindName "map[string]string")

/-- Text of an `UnmarshalError` (`Error()`). The text of a syntax error is
composed by the library scanner from the offending byte and its position; the
provider only embeds it, and it is supplied here as `syntaxText`. -/
def UnmarshalError.text (syntaxText : String) : UnmarshalError → String
  | .syntaxError => syntaxText
  | .typeError value goType =>
    "json: cannot unmarshal " ++ value ++ " into Go value of type " ++ goType

/-! ## Diagnostics, resource data and context -/

/-- Severity of a diagnostic (`diag.Severity`). -/
inductive Severity where
  | Error
  | Warning
deriving DecidableEq

/-- One diagnostic (`diag.Diagnostic`); `attributePath` is the attribute name
given to `cty.GetAttrPath`. -/
structure Diagnostic where
  severity : Severity
  summary : String
  detail : String
  attributePath : String
deriving DecidableEq

/-- A list of diagnostics (`diag.Diagnostics`); `nil` is the empty list. -/
abbrev Diagnostics := List Diagnostic

/-- `Diagnostics.HasError`: some diagnostic has severity Error. -/
def Diagnostics.HasError (ds : Diagnostics) : Bool :=
  ds.any (fun x => decide (x.severity = Severity.Error))

/-- The attributes of a managed entity (`schema.ResourceData`) that the
executor reads and writes. The data source has no `_destroy` attributes and
never reads them. -/
structure ResourceData where
  program : List String
  working_dir : String
  query : GoMap
  program_destroy : List String
  working_dir_destroy : String
  query_destroy : GoMap
  result : GoMap
  id : String
deriving DecidableEq

/-- `d.Get(key)` for the list attributes. -/
def ResourceData.getList (d : ResourceData) (key : String) : List String :=
  if key = "program" then d.program
  else if key = "program_destroy" then d.program_destroy
  else []

/-- `d.Get(key)` for the string attributes. -/
def ResourceData.getString (d : ResourceData) (key : String) : String :=
  if key = "working_dir" then d.working_dir
  else if key = "working_dir_destroy" then d.working_dir_destroy
  else ""

/-- `d.Get(key)` for the map attributes. -/
def ResourceData.getMap (d : ResourceData) (key : String) : GoMap :=
  if key = "query" then d.query
  else if key = "query_destroy" then d.query_destroy
  else []

/-- A member name the resource data's map can hold. The SDK keeps a map
attribute flat, one entry `result.<name>` per member next to the count
`result.%`, and reading the map back skips the entries named `%` and `#`. -/
def storableKey (key : String) : Bool :=
  decide (key ≠ "%") && decide (key ≠ "#")

/-- `d.Set(key, value)` for the map attribute `result`, the only attribute the
executor sets, read back as `d.Get` and the saved state show it: the map
replaces the earlier one, and its members named `%` and `#` are lost. For a
map of strings `d.Set` returns no error (and the caller ignores what it
returns). -/
def ResourceData.Set (d : ResourceData) (key : String) (value : GoMap) : ResourceData :=
  if key = "result" then { d with result := value.filter (fun p => storableKey p.1) }
  else d

/-- `d.SetId(v)`. -/
def ResourceData.SetId (d : ResourceData) (v : String) : ResourceData :=
  { d with id := v }

/-- The values carried by a `context.Context`, newest first. -/
structure Context where
  values : List (String × String)
deriving DecidableEq

/-- `ctx.Value(key)`; `none` is nil. -/
def Context.Value (ctx : Context) (key : String) : Option String :=
  GoMap.get ctx.values key

/-- `context.WithValue(ctx, key, val)`. -/
def Context.WithValue (ctx : Context) (key val : String) : Context :=
  { values := (key, val) :: ctx.values }

/-! ## os/exec and the operating system -/

/-- A command about to be run (`exec.Cmd`). `Env = none` is a nil `Env`: the
child then runs with the environment of the current process. `Stdin` is the
text the child can read from its standard input. `Err` is the lookup error
remembered by `exec.Command`. -/
structure Cmd where
  Path : String
  Args : List String
  Env : Option (List String)
  Dir : String
  Stdin : String
  Err : Option String
deriving DecidableEq

/-- The error returned by `cmd.Output()`: an `*exec.ExitError` with the
standard error text it holds and its `Error()` text (the exit state), or any
other error with its text. -/
inductive RunError where
  | exitError (stderr : String) (state : String)
  | other (text : String)
deriving DecidableEq

/-- What `cmd.Output()` returns: the captured standard output and the error. -/
structure Output where
  stdout : String
  err : Option RunError
deriving DecidableEq

/-- One interaction with the operating system: a search for an executable with
its result, or a command handed to the system to be started, with what
`cmd.Output()` returned for it. -/
inductive Event where
  | lookPath (file : String) (path : String) (err : Option String)
  | start (cmd : Cmd) (out : Output)
deriving DecidableEq

/-- The platform the provider runs on. `lookPath` is `exec.LookPath` (the path
found and the error, if any), `run` is the starting of a process and the wait
for its end, and both may depend on everything that happened before, given as
the list of earlier events. `goos` is `runtime.GOOS`, `environ` is
`os.Environ()`, `baseName` is `filepath.Base`, and `syntaxErrorText` is the
text of the `json.SyntaxError` for a malformed document. -/
structure World where
  goos : String
  environ : List String
  baseName : String → String
  lookPath : List Event → String → String × Option String
  run : List Event → Cmd → Output
  syntaxErrorText : String → String

/-- `exec.CommandContext(ctx, name, arg...)`: a bare file name is resolved with
`LookPath`, the path found replaces the name and a failure is remembered in
`Err`. Returns the command and the lookup it made, if any. -/
def CommandContext (w : World) (hist : List Event) (name : String) (arg : List String) :
    Cmd × List Event :=
  let cmd : Cmd :=
    { Path := name, Args := name :: arg, Env := none, Dir := "", Stdin := "", Err := none }
  if w.baseName name = name then
    let lp := w.lookPath hist name
    let cmd := if lp.1 ≠ "" then { cmd with Path := lp.1 } else cmd
    let cmd :=
      match lp.2 with
      | some e => { cmd with Err := some e }
      | none => cmd
    (cmd, [Event.lookPath name lp.1 lp.2])
  else (cmd, [])

/-- `cmd.Output()`: a command whose lookup failed returns that error without
starting anything; otherwise the process is started and waited for. -/
def Cmd.Output (w : World) (hist : List Event) (cmd : Cmd) : Output × List Event :=
  match cmd.Err with
  | some e => ({ stdout := "", err := some (RunError.other e) }, [])
  | none => (w.run hist cmd, [Event.start cmd (w.run hist cmd)])

/-! ## run_program.go -/

/-- What a call leaves behind: the diagnostics returned, the resource data
after the call, and the interactions with the operating system it made, in
order. -/
structure Outcome where
  diags : Diagnostics
  d : ResourceData
  events : List Event
deriving DecidableEq

/-- The attribute suffix for a program variant. -/
def attrSuffix (kind : String) : String :=
  if kind ≠ "" then "_" ++ kind else ""

/-- Detail of the diagnostic for a configuration without a program. -/
def missingDetail : String :=
  "The data source was configured without a program to execute. Verify the configuration contains at least one non-empty value."

/-- Fixed part of the detail of the diagnostic for a query that cannot be
marshalled. -/
def queryDetail : String :=
  "The data source received an unexpected error while attempting to parse the query. " ++
  "This is always a bug in the external provider code and should be reported to the provider developers."

/-- Fixed part of the detail of the diagnostic for a failed lookup. -/
def lookupDetail : String :=
  "The data source received an unexpected error while attempting to find the program.\n" ++
  "\n" ++
  "The program must be accessible according to the platform where Terraform is running.\n" ++
  "\n" ++
  "If the expected program should be automatically found on the platform where Terraform is running, ensure that the program is in an expected directory. On Unix-based platforms, these directories are typically searched based on the \x27$PATH\x27 environment variable. On Windows-based platforms, these directories are typically searched based on the \x27%PATH%\x27 environment variable.\n" ++
  "\n" ++
  "If the expected program is relative to the Terraform configuration, it is recommended that the program name includes the interpolated value of \x27path.module\x27 before the program name to ensure that it is compatible with varying module usage. For example: \"$\x7bpath.module\x7d/my-program\"\n" ++
  "\n" ++
  "The program must also be executable according to the platform where Terraform is running. On Unix-based platforms, the file on the filesystem must have the executable bit set. On Windows-based platforms, no action is typically necessary.\n"

/-- Fixed part of the detail of the diagnostics for a failed execution. -/
def executionDetail : String :=
  "The data source received an unexpected error while attempting to execute the program."

/-- Fixed part of the detail of the diagnostic for unexpected results. -/
def resultsDetail : String :=
  "The data source received unexpected results after executing the program.\n" ++
  "\n" ++
  "Program output must be a JSON encoded map of string keys and string values.\n" ++
  "\n" ++
  "If the error is unclear, the output can be viewed by enabling Terraform\x27s logging at TRACE level. Terraform documentation on logging: https://www.terraform.io/internals/debugging\n"

/-- The diagnostic for a configuration without a program. -/
def missingDiag (programAttr : String) : Diagnostic :=
  { severity := Severity.Error,
    summary := "External Program Missing",
    detail := missingDetail,
    attributePath := programAttr }

/-- The diagnostic for a query that cannot be marshalled. -/
def queryDiag (queryAttr err : String) : Diagnostic :=
  { severity := Severity.Error,
    summary := "Query Handling Failed",
    detail := queryDetail ++ ("\n\nError: " ++ err),
    attributePath := queryAttr }

/-- The diagnostic for a program that `exec.LookPath` does not find. -/
def lookupDiag (programAttr goos program0 err : String) : Diagnostic :=
  { severity := Severity.Error,
    summary := "External Program Lookup Failed",
    detail := lookupDetail ++ ("\nPlatform: " ++ goos) ++ ("\nProgram: " ++ program0) ++
      ("\nError: " ++ err),
    attributePath := programAttr }

/-- The diagnostic for an `*exec.ExitError` that holds standard error text. -/
def exitDiag (programAttr path stderr state : String) : Diagnostic :=
  { severity := Severity.Error,
    summary := "External Program Execution Failed",
    detail := executionDetail ++ ("\n\nProgram: " ++ path) ++
      ("\nError Message: " ++ stderr) ++ ("\nState: " ++ state),
    attributePath := programAttr }

/-- The diagnostic for an `*exec.ExitError` without standard error text. -/
def exitSilentDiag (programAttr path state : String) : Diagnostic :=
  { severity := Severity.Error,
    summary := "External Program Execution Failed",
    detail := executionDetail ++ "\n\n" ++
      "The program was executed, however it returned no additional error messaging." ++
      ("\n\nProgram: " ++ path) ++ ("\nState: " ++ state),
    attributePath := programAttr }

/-- The diagnostic for any other error of `cmd.Output()`. -/
def launchDiag (programAttr path text : String) : Diagnostic :=
  { severity := Severity.Error,
    summary := "External Program Execution Failed",
    detail := executionDetail ++ ("\n\nProgram: " ++ path) ++ ("\nError: " ++ text),
    attributePath := programAttr }

/-- The diagnostic for output that does not decode into a map of strings. -/
def resultsDiag (programAttr path err : String) : Diagnostic :=
  { severity := Severity.Error,
    summary := "Unexpected External Program Results",
    detail := resultsDetail ++ ("\nProgram: " ++ path) ++ ("\nResult Error: " ++ err),
    attributePath := programAttr }

/-- The function `runProgram(ctx, kind, d, meta)`. `hist` is what happened
before the call. Tracing calls are left out, and each diagnostic literal of
the source is one of the definitions above. The elements of the program list
are strings by the schema, so the type assertion on them always holds. -/
def runProgram (w : World) (ctx : Context) (kind : String) (d : ResourceData)
    (hist : List Event) : Outcome :=
  let suffix := attrSuffix kind
  let action :=
    match ctx.Value "tf_action" with
    | none => ""
    | some a => a
  let programAttr := "program" ++ suffix
  let workingDirAttr := "working_dir" ++ suffix
  let queryAttr := "query" ++ suffix
  let programI := d.getList programAttr
  if programI.length = 0 then { diags := [], d := d, events := [] }
  else
    let workingDir := d.getString workingDirAttr
    let query := d.getMap queryAttr
    let program := programI.filter (fun programArg => programArg ≠ "")
    match program with
    | [] => { diags := [missingDiag programAttr], d := d, events := [] }
    | program0 :: programArgs =>
      match jsonMarshal query with
      | .error err => { diags := [queryDiag queryAttr err], d := d, events := [] }
      | .ok queryJson =>
        let found := w.lookPath hist program0
        let ev1 := [Event.lookPath program0 found.1 found.2]
        match found.2 with
        | some err =>
          { diags := [lookupDiag programAttr w.goos program0 err], d := d, events := ev1 }
        | none =>
          let made := CommandContext w (hist ++ ev1) program0 programArgs
          let cmd0 := { made.1 with Dir := workingDir, Stdin := queryJson }
          let cmd :=
            if action ≠ "" then
              { cmd0 with Env := some (w.environ ++ ["TF_EXTERNAL_ACTION=" ++ action]) }
            else cmd0
          let ev2 := ev1 ++ made.2
          let ran := cmd.Output w (hist ++ ev2)
          let resultJson := ran.1.stdout
          let ev3 := ev2 ++ ran.2
          match ran.1.err with
          | some (RunError.exitError stderr state) =>
            if stderr.length > 0 then
              { diags := [exitDiag programAttr cmd.Path stderr state], d := d, events := ev3 }
            else
              { diags := [exitSilentDiag programAttr cmd.Path state], d := d, events := ev3 }
          | some (RunError.other text) =>
            { diags := [launchDiag programAttr cmd.Path text], d := d, events := ev3 }
          | none =>
            match jsonUnmarshal resultJson with
            | .error err =>
              { diags := [resultsDiag programAttr cmd.Path
                  (err.text (w.syntaxErrorText resultJson))],
                d := d, events := ev3 }
            | .ok result =>
              { diags := [], d := (d.Set "result" result).SetId "-", events := ev3 }

/-! ## data_source.go and resource.go -/

/-- The function `dataSourceRead`. -/
def dataSourceRead (w : World) (ctx : Context) (d : ResourceData) (hist : List Event) :
    Outcome :=
  runProgram w ctx "" d hist

/-- The function `resourceExternalCreate`. -/
def resourceExternalCreate (w : World) (ctx : Context) (d : ResourceData)
    (hist : List Event) : Outcome :=
  let ctx := ctx.WithValue "tf_action" "create"
  runProgram w ctx "" d hist

/-- The function `resourceExternalRead`. -/
def resourceExternalRead (_w : World) (_ctx : Context) (d : ResourceData)
    (_hist : List Event) : Outcome :=
  { diags := [], d := d, events := [] }

/-- The function `resourceExternalUpdate`: the second call sees the resource
data and the history the first call left. -/
def resourceExternalUpdate (w : World) (ctx : Context) (d : ResourceData)
    (hist : List Event) : Outcome :=
  let ctx := ctx.WithValue "tf_action" "update"
  let first := runProgram w ctx "destroy" d hist
  if first.diags.HasError then first
  else
    let second := runProgram w ctx "" first.d (hist ++ first.events)
    { diags := second.diags, d := second.d, events := first.events ++ second.events }

/-- The function `resourceExternalDelete`. -/
def resourceExternalDelete (w : World) (ctx : Context) (d : ResourceData)
    (hist : List Event) : Outcome :=
  let ctx := ctx.WithValue "tf_action" "delete"
  runProgram w ctx "destroy" d hist

/-! ## Notions used to state the properties -/

/-- The action the context names: the value of `tf_action`, or the empty string. -/
def actionOf (ctx : Context) : String :=
  match ctx.Value "tf_action" with
  | none => ""
  | some a => a

/-- The `Env` field `runProgram` leaves in the command it builds. -/
def envOf (w : World) (ctx : Context) : Option (List String) :=
  if actionOf ctx ≠ "" then some (w.environ ++ ["TF_EXTERNAL_ACTION=" ++ actionOf ctx])
  else none

/-- The diagnostics `runProgram` returns for what `cmd.Output()` returned. -/
def outputDiags (w : World) (programAttr : String) (cmd : Cmd) (o : Output) : Diagnostics :=
  match o.err with
  | some (RunError.exitError stderr state) =>
    if stderr.length > 0 then [exitDiag programAttr cmd.Path stderr state]
    else [exitSilentDiag programAttr cmd.Path state]
  | some (RunError.other text) => [launchDiag programAttr cmd.Path text]
  | none =>
    match jsonUnmarshal o.stdout with
    | .error err => [resultsDiag programAttr cmd.Path (err.text (w.syntaxErrorText o.stdout))]
    | .ok _ => []

/-- The resource data `runProgram` leaves for what `cmd.Output()` returned. -/
def outputData (d : ResourceData) (o : Output) : ResourceData :=
  match o.err with
  | some _ => d
  | none =>
    match jsonUnmarshal o.stdout with
    | .error _ => d
    | .ok result => (d.Set "result" result).SetId "-"

/-- A JSON string or `null`. -/
def JValue.isStringOrNull : JValue → Bool
  | .str _ => true
  | .null => true
  | _ => false

/-- The documents `json.Unmarshal` decodes into a `map[string]string` without
an error: well-formed, with a top-level `null` or a top-level object each of
whose values is a string or `null`. -/
def acceptedDocument (data : String) : Bool :=
  match parseJSON data.data with
  | some (.object members) => members.all (fun p => p.2.isStringOrNull)
  | some .null => true
  | _ => false

/-- The text `s` occurs in `detail` as a contiguous piece. -/
def containsText (detail s : String) : Prop := List.IsInfix s.data detail.data

instance (detail s : String) : Decidable (containsText detail s) :=
  inferInstanceAs (Decidable (List.IsInfix s.data detail.data))

/-! ## A concrete platform and concrete configurations -/

/-- A platform with six programs on its search path: `cat` echoes its input,
`boom` writes `boom` to standard error and exits with status 1, `quiet` exits
with status 1 in silence, `one` prints an object with one string member,
`nulls` prints an object whose only member is `null`, and `percent` prints an
object with a member named `%` and a member named `a`. -/
def demoWorld : World :=
  { goos := "linux",
    environ := ["PATH=/bin"],
    baseName := fun name => name,
    lookPath := fun _ file =>
      if file = "cat" ∨ file = "boom" ∨ file = "quiet" ∨ file = "one" ∨ file = "nulls" ∨
          file = "percent" then
        ("/bin/" ++ file, none)
      else ("", some "executable file not found in $PATH"),
    run := fun _ cmd =>
      if cmd.Path = "/bin/cat" then { stdout := cmd.Stdin, err := none }
      else if cmd.Path = "/bin/boom" then
        { stdout := "", err := some (RunError.exitError "boom" "exit status 1") }
      else if cmd.Path = "/bin/one" then { stdout := "\x7b\"x\":\"1\"\x7d\n", err := none }
      else if cmd.Path = "/bin/nulls" then { stdout := "\x7b\"a\":null\x7d", err := none }
      else if cmd.Path = "/bin/percent" then
        { stdout := "\x7b\"%\":\"x\",\"a\":\"y\"\x7d", err := none }
      else { stdout := "", err := some (RunError.exitError "" "exit status 1") },
    syntaxErrorText := fun _ => "unexpected end of JSON input" }

/-- A context without values, as the host passes it. -/
def hostContext : Context := { values := [] }

/-- An entity with the given programs and query and nothing else set. -/
def demoData (program : List String) (query : GoMap) (programDestroy : List String) :
    ResourceData :=
  { program := program, working_dir := "", query := query,
    program_destroy := programDestroy, working_dir_destroy := "", query_destroy := [],
    result := [], id := "" }

/-- The commands handed to the system to be started, in order. -/
def startedCmds : List Event → List Cmd
  | [] => []
  | Event.start cmd _ :: rest => cmd :: startedCmds rest
  | Event.lookPath _ _ _ :: rest => startedCmds rest

/-! ## The string literal reader inverts the escaping -/

theorem hexVal_hexDigit (n : Nat) : hexVal (hexDigit n) = some (n % 16) := by
  have h : n % 16 < 16 := Nat.mod_lt _ (by decide)
  have e : hexDigit n = "0123456789abcdef".data.getD (n % 16) '0' := rfl
  rw [e]
  generalize n % 16 = k at h ⊢
  interval_cases k <;> rfl

theorem hex4_low (n : Nat) (h : n < 256) :
    hex4 '0' '0' (hexDigit (n / 16)) (hexDigit n) = some n := by
  have h0 : hexVal '0' = some 0 := by decide
  simp only [hex4, h0, hexVal_hexDigit]
  congr 1
  omega

theorem hex4_sep (n : Nat) (h : n = 0x2028 ∨ n = 0x2029) :
    hex4 '2' '0' '2' (hexDigit n) = some n := by
  rcases h with rfl | rfl <;> decide

theorem parseStringBody_cons (pend : Option Nat) (c : Char) (cs : List Char) :
    parseStringBody pend (c :: cs) =
    if c = '"' then some (flushPending pend [], cs)
    else if c = '\\' then
      match cs with
      | [] => none
      | e :: cs1 =>
        if e = 'u' then
          match cs1 with
          | h1 :: h2 :: h3 :: h4 :: cs2 =>
            match hex4 h1 h2 h3 h4 with
            | none => none
            | some rr =>
              if pend.isSome ∧ isLowSurrogate rr then
                emit [decodeSurrogates (pend.getD 0) rr] (parseStringBody none cs2)
              else if isHighSurrogate rr then
                emit (flushPending pend []) (parseStringBody (some rr) cs2)
              else if isLowSurrogate rr then
                emit (flushPending pend [replacementChar]) (parseStringBody none cs2)
              else
                emit (flushPending pend [Char.ofNat rr]) (parseStringBody none cs2)
          | _ => none
        else
          match simpleEscape e with
          | some ch => emit (flushPending pend [ch]) (parseStringBody none cs1)
          | none => none
    else if c.toNat < 0x20 then none
    else emit (flushPending pend [c]) (parseStringBody none cs) := by
  rw [parseStringBody.eq_def]

theorem parseStringBody_simple (e ch : Char) (tail : List Char) (he : e ≠ 'u')
    (hs : simpleEscape e = some ch) :
    parseStringBody none ('\\' :: e :: tail) = emit [ch] (parseStringBody none tail) := by
  rw [parseStringBody_cons]
  have h1 : ¬ ('\\' = '"') := by decide
  simp only [h1, if_false, if_true, he, hs, flushPending]

theorem parseStringBody_u (a b c d : Char) (n : Nat) (tail : List Char)
    (hx : hex4 a b c d = some n) (hn : n < 0xd800) :
    parseStringBody none ('\\' :: 'u' :: a :: b :: c :: d :: tail) =
      emit [Char.ofNat n] (parseStringBody none tail) := by
  rw [parseStringBody_cons]
  have h1 : ¬ ('\\' = '"') := by decide
  have h2 : isHighSurrogate n = false := by
    simp only [isHighSurrogate, Bool.and_eq_false_imp, decide_eq_true_eq, decide_eq_false_iff_not]
    omega
  have h3 : isLowSurrogate n = false := by
    simp only [isLowSurrogate, Bool.and_eq_false_imp, decide_eq_true_eq, decide_eq_false_iff_not]
    omega
  simp [h1, hx, h2, h3, flushPending]

theorem parseStringBody_escapeChar (c : Char) (tail : List Char) :
    parseStringBody none (escapeChar c ++ tail) = emit [c] (parseStringBody none tail) := by
  unfold escapeChar
  split_ifs with h1 h2 h3 h4 h5 h6
  · rcases h1 with rfl | rfl <;>
      exact parseStringBody_simple _ _ _ (by decide) (by decide)
  · subst h2; exact parseStringBody_simple _ _ _ (by decide) (by decide)
  · subst h3; exact parseStringBody_simple _ _ _ (by decide) (by decide)
  · subst h4; exact parseStringBody_simple _ _ _ (by decide) (by decide)
  · have hlt : c.toNat < 256 := by
      rcases h5 with h | rfl | rfl | rfl
      · omega
      all_goals decide
    have := parseStringBody_u '0' '0' (hexDigit (c.toNat / 16)) (hexDigit c.toNat) c.toNat tail
      (hex4_low _ hlt) (by omega)
    simpa [Char.ofNat_toNat] using this
  · have := parseStringBody_u '2' '0' '2' (hexDigit c.toNat) c.toNat tail
      (hex4_sep _ h6) (by omega)
    simpa [Char.ofNat_toNat] using this
  · rw [List.singleton_append, parseStringBody_cons]
    have q1 : ¬ c = '"' := fun h => h1 (Or.inr h)
    have q2 : ¬ c = '\\' := fun h => h1 (Or.inl h)
    have q3 : ¬ c.toNat < 0x20 := fun h => h5 (Or.inl h)
    simp only [q1, q2, q3, if_false, flushPending]

theorem parseStringBody_escapeChars (s rest : List Char) :
    parseStringBody none (escapeChars s ++ '"' :: rest) = some (s, rest) := by
  induction s with
  | nil => simp [escapeChars, parseStringBody_cons, flushPending]
  | cons c cs ih =>
    rw [escapeChars, List.append_assoc, parseStringBody_escapeChar, ih]
    rfl

/-! ## Decoding inverts encoding -/

theorem skipSpace_cons (c : Char) (cs : List Char) (h : isSpace c = false) :
    skipSpace (c :: cs) = c :: cs := by
  simp [skipSpace, h]

theorem encodeString_eq (s : String) (rest : List Char) :
    encodeString s ++ rest = '"' :: (escapeChars s.data ++ '"' :: rest) := by
  simp [encodeString]

theorem parseValue_encodeString (fuel depth : Nat) (v : String) (rest : List Char) :
    parseValue (fuel + 1) depth (encodeString v ++ rest) = some (JValue.str v, rest) := by
  rw [encodeString_eq, parseValue, skipSpace_cons _ _ (by decide)]
  simp only [parseStringBody_escapeChars]
  have h1 : ¬ ('"' = '{') := by decide
  have h2 : ¬ ('"' = '[') := by decide
  simp [h1, h2]

theorem encodeMembers_cons (k v : String) (r : List (String × String)) (rest : List Char) :
    encodeMembers ((k, v) :: r) ++ '}' :: rest =
      encodeString k ++ (':' :: (encodeString v ++
        (if r = [] then '}' :: rest else ',' :: (encodeMembers r ++ '}' :: rest)))) := by
  cases r with
  | nil => simp [encodeMembers]
  | cons p r => simp [encodeMembers]

theorem parseMembers_encodeMembers (kvs : List (String × String)) :
    ∀ (fuel depth : Nat) (acc : List (String × JValue)) (rest : List Char),
      kvs ≠ [] → kvs.length < fuel →
      parseMembers fuel depth (encodeMembers kvs ++ '}' :: rest) acc =
        some (JValue.object (acc ++ kvs.map (fun p => (p.1, JValue.str p.2))), rest) := by
  induction kvs with
  | nil => intro _ _ _ _ h; exact absurd rfl h
  | cons p r ih =>
    intro fuel depth acc rest _ hlen
    obtain ⟨k, v⟩ := p
    obtain ⟨f, rfl⟩ : ∃ f, fuel = f + 1 := ⟨fuel - 1, by simp at hlen; omega⟩
    obtain ⟨g, rfl⟩ : ∃ g, f = g + 1 := ⟨f - 1, by simp at hlen; omega⟩
    rw [encodeMembers_cons, encodeString_eq, parseMembers, skipSpace_cons _ _ (by decide)]
    simp only [parseStringBody_escapeChars, if_true]
    rw [skipSpace_cons _ _ (by decide)]
    simp only [if_true, parseValue_encodeString]
    by_cases hr : r = []
    · subst hr
      simp only [if_true]
      rw [skipSpace_cons _ _ (by decide)]
      have h1 : ¬ ('}' = ',') := by decide
      simp [h1]
    · simp only [hr, if_false]
      rw [skipSpace_cons _ _ (by decide)]
      simp only [if_true]
      rw [ih (g + 1) depth _ rest hr (by simp at hlen; omega)]
      simp

theorem encodeString_length_pos (s : String) : 0 < (encodeString s).length := by
  simp [encodeString]

theorem encodeMembers_length (kvs : List (String × String)) :
    kvs.length ≤ (encodeMembers kvs).length := by
  induction kvs with
  | nil => simp
  | cons p r ih =>
    obtain ⟨k, v⟩ := p
    cases r with
    | nil =>
      have := encodeString_length_pos k
      simp [encodeMembers]
      omega
    | cons q r =>
      have := encodeString_length_pos k
      simp only [encodeMembers, List.length_append, List.length_cons] at ih ⊢
      omega

theorem parseJSON_encode (kvs : List (String × String)) :
    parseJSON ('{' :: (encodeMembers kvs ++ ['}'])) =
      some (JValue.object (kvs.map (fun p => (p.1, JValue.str p.2)))) := by
  have hd : ¬ (maxNestingDepth < 0 + 1) := by decide
  cases kvs with
  | nil =>
    simp only [parseJSON, encodeMembers, List.nil_append, List.length_cons, List.length_nil]
    rw [parseValue, skipSpace_cons _ _ (by decide)]
    simp only [if_true, hd, if_false]
    rw [skipSpace_cons _ _ (by decide)]
    simp [skipSpace]
  | cons p r =>
    obtain ⟨k, v⟩ := p
    have hlen := encodeMembers_length ((k, v) :: r)
    have hm := parseMembers_encodeMembers ((k, v) :: r)
      (2 * ('{' :: (encodeMembers ((k, v) :: r) ++ ['}'])).length + 1) (0 + 1) [] []
      (by simp) (by simp only [List.length_cons, List.length_append] at hlen ⊢; omega)
    unfold parseJSON
    rw [parseValue, skipSpace_cons _ _ (by decide)]
    simp only [if_true, hd, if_false]
    have hq : ∃ t, encodeMembers ((k, v) :: r) ++ ['}'] = '"' :: t := by
      rw [encodeMembers_cons, encodeString_eq]; exact ⟨_, rfl⟩
    obtain ⟨t, ht⟩ := hq
    rw [ht] at hm ⊢
    rw [skipSpace_cons _ _ (by decide)]
    have h1 : ¬ ('"' = '}') := by decide
    simp only [h1, if_false, hm]
    simp [skipSpace]

theorem decodeMembers_strings (kvs : List (String × String)) :
    ∀ (m : GoMap) (err : Option UnmarshalError),
      decodeMembers (kvs.map (fun p => (p.1, JValue.str p.2))) m err =
        (kvs.foldl (fun acc p => GoMap.set acc p.1 p.2) m, err) := by
  induction kvs with
  | nil => intro m err; rfl
  | cons p r ih => intro m err; simp [decodeMembers, ih]

theorem GoMap.get_set (m : GoMap) (a b k : String) :
    GoMap.get (GoMap.set m a b) k = if a = k then some b else GoMap.get m k := by
  induction m with
  | nil => simp [GoMap.set, GoMap.get]
  | cons p r ih =>
    obtain ⟨x, y⟩ := p
    by_cases hx : x = a
    · subst hx
      by_cases hk : x = k <;> simp [GoMap.set, GoMap.get, hk]
    · by_cases hk : x = k
      · subst hk
        have : ¬ a = x := fun h => hx h.symm
        simp [GoMap.set, GoMap.get, hx, this]
      · simp [GoMap.set, GoMap.get, hx, hk, ih]

theorem GoMap.get_eq_none (m : GoMap) (k : String) (h : k ∉ m.map Prod.fst) :
    GoMap.get m k = none := by
  induction m with
  | nil => rfl
  | cons p r ih =>
    obtain ⟨x, y⟩ := p
    simp only [List.map_cons, List.mem_cons, not_or] at h
    have : ¬ x = k := fun e => h.1 e.symm
    simp [GoMap.get, this, ih h.2]

theorem GoMap.get_of_mem (m : GoMap) (k v : String) (hn : (m.map Prod.fst).Nodup)
    (h : (k, v) ∈ m) : GoMap.get m k = some v := by
  induction m with
  | nil => simp at h
  | cons p r ih =>
    obtain ⟨x, y⟩ := p
    simp only [List.map_cons, List.nodup_cons] at hn
    rcases List.mem_cons.1 h with e | e
    · cases e; simp [GoMap.get]
    · have hx : ¬ x = k := by
        intro hxk
        subst hxk
        exact hn.1 (List.mem_map.2 ⟨(x, v), e, rfl⟩)
      simp [GoMap.get, hx, ih hn.2 e]

theorem GoMap.mem_of_get (m : GoMap) (k v : String) (h : GoMap.get m k = some v) :
    (k, v) ∈ m := by
  induction m with
  | nil => simp [GoMap.get] at h
  | cons p r ih =>
    obtain ⟨x, y⟩ := p
    by_cases hx : x = k
    · subst hx
      simp [GoMap.get] at h
      simp [h]
    · simp [GoMap.get, hx] at h
      exact List.mem_cons_of_mem _ (ih h)

theorem GoMap.get_perm (m1 m2 : GoMap) (hp : m1.Perm m2) (hn : (m1.map Prod.fst).Nodup)
    (k : String) : GoMap.get m1 k = GoMap.get m2 k := by
  have hn2 : (m2.map Prod.fst).Nodup := (hp.map Prod.fst).nodup_iff.1 hn
  cases h1 : GoMap.get m1 k with
  | some v =>
    exact (GoMap.get_of_mem m2 k v hn2 (hp.subset (GoMap.mem_of_get m1 k v h1))).symm
  | none =>
    cases h2 : GoMap.get m2 k with
    | none => rfl
    | some v =>
      have := GoMap.get_of_mem m1 k v hn (hp.symm.subset (GoMap.mem_of_get m2 k v h2))
      rw [h1] at this
      cases this

theorem GoMap.get_foldl_set (kvs : List (String × String)) :
    ∀ (m : GoMap) (k : String), (kvs.map Prod.fst).Nodup →
      GoMap.get (kvs.foldl (fun acc p => GoMap.set acc p.1 p.2) m) k =
        match GoMap.get kvs k with
        | some v => some v
        | none => GoMap.get m k := by
  induction kvs with
  | nil => intro m k _; rfl
  | cons p r ih =>
    intro m k hn
    obtain ⟨x, y⟩ := p
    simp only [List.map_cons, List.nodup_cons] at hn
    simp only [List.foldl_cons]
    rw [ih _ k hn.2, GoMap.get_set]
    by_cases hx : x = k
    · subst hx
      simp [GoMap.get, GoMap.get_eq_none r x hn.1]
    · simp [GoMap.get, hx]

/-- Decoding the encoded map gives a map with the same keys and values. -/
theorem jsonUnmarshal_jsonMarshal (m : GoMap) (hn : (m.map Prod.fst).Nodup) :
    ∃ js r, jsonMarshal m = .ok js ∧ jsonUnmarshal js = .ok r ∧
      ∀ k, GoMap.get r k = GoMap.get m k := by
  refine ⟨_, (sortedEntries m).foldl (fun acc p => GoMap.set acc p.1 p.2) [], rfl, ?_, ?_⟩
  · simp only [jsonUnmarshal, parseJSON_encode, decodeMembers_strings]
  · intro k
    have hp : (sortedEntries m).Perm m := List.perm_insertionSort _ _
    have hn2 : ((sortedEntries m).map Prod.fst).Nodup := (hp.map Prod.fst).nodup_iff.2 hn
    rw [GoMap.get_foldl_set _ _ _ hn2, GoMap.get_perm _ _ hp hn2 k]
    cases GoMap.get m k <;> rfl

/-! ## The paths through `runProgram` -/

theorem CommandContext_spec (w : World) (hist : List Event) (name : String)
    (arg : List String) :
    (CommandContext w hist name arg).1.Args = name :: arg ∧
    (CommandContext w hist name arg).1.Env = none ∧
    (∀ e ∈ (CommandContext w hist name arg).2, ∃ p err, e = Event.lookPath name p err) ∧
    (∀ e, (CommandContext w hist name arg).1.Err = some e →
      ∃ p, Event.lookPath name p (some e) ∈ (CommandContext w hist name arg).2) := by
  unfold CommandContext
  dsimp only
  by_cases hb : w.baseName name = name
  · simp only [hb, if_true]
    refine ⟨?_, ?_, ?_, ?_⟩
    · split <;> split <;> rfl
    · split <;> split <;> rfl
    · intro e he
      simp only [List.mem_singleton] at he
      exact ⟨_, _, he⟩
    · intro e he
      refine ⟨(w.lookPath hist name).1, ?_⟩
      cases hl : (w.lookPath hist name).2 with
      | none =>
        rw [hl] at he
        dsimp only at he
        split at he <;> simp at he
      | some e2 =>
        rw [hl] at he
        dsimp only at he
        cases he
        simp
  · simp [hb]

theorem Cmd.Output_of_err (w : World) (hist : List Event) (cmd : Cmd) (e : String)
    (h : cmd.Err = some e) :
    cmd.Output w hist = ({ stdout := "", err := some (RunError.other e) }, []) := by
  simp [Cmd.Output, h]

theorem Cmd.Output_of_ok (w : World) (hist : List Event) (cmd : Cmd)
    (h : cmd.Err = none) :
    cmd.Output w hist = (w.run hist cmd, [Event.start cmd (w.run hist cmd)]) := by
  simp [Cmd.Output, h]

theorem runProgram_spec (w : World) (ctx : Context) (kind : String)
    (d : ResourceData) (hist : List Event) :
    (d.getList ("program" ++ attrSuffix kind) = [] ∧
      runProgram w ctx kind d hist = { diags := [], d := d, events := [] }) ∨
    (d.getList ("program" ++ attrSuffix kind) ≠ [] ∧
      (d.getList ("program" ++ attrSuffix kind)).filter (fun a => a ≠ "") = [] ∧
      runProgram w ctx kind d hist =
        { diags := [missingDiag ("program" ++ attrSuffix kind)], d := d, events := [] }) ∨
    (∃ p0 args e,
      (d.getList ("program" ++ attrSuffix kind)).filter (fun a => a ≠ "") = p0 :: args ∧
      (w.lookPath hist p0).2 = some e ∧
      runProgram w ctx kind d hist =
        { diags := [lookupDiag ("program" ++ attrSuffix kind) w.goos p0 e], d := d,
          events := [Event.lookPath p0 (w.lookPath hist p0).1 (some e)] }) ∨
    (∃ (p0 : String) (args : List String) (cmd : Cmd) (pre : List Event) (e : String),
      (d.getList ("program" ++ attrSuffix kind)).filter (fun a => a ≠ "") = p0 :: args ∧
      (w.lookPath hist p0).2 = none ∧
      (∀ x ∈ pre, ∃ p err, x = Event.lookPath p0 p err) ∧
      (∃ p, Event.lookPath p0 p (some e) ∈ pre) ∧
      runProgram w ctx kind d hist =
        { diags := [launchDiag ("program" ++ attrSuffix kind) cmd.Path e], d := d,
          events := pre }) ∨
    (∃ (p0 : String) (args : List String) (cmd : Cmd) (pre : List Event),
      (d.getList ("program" ++ attrSuffix kind)).filter (fun a => a ≠ "") = p0 :: args ∧
      (w.lookPath hist p0).2 = none ∧
      (∀ x ∈ pre, ∃ p err, x = Event.lookPath p0 p err) ∧
      cmd.Args = p0 :: args ∧ cmd.Env = envOf w ctx ∧
      cmd.Dir = d.getString ("working_dir" ++ attrSuffix kind) ∧
      jsonMarshal (d.getMap ("query" ++ attrSuffix kind)) = .ok cmd.Stdin ∧
      runProgram w ctx kind d hist =
        { diags := outputDiags w ("program" ++ attrSuffix kind) cmd (w.run (hist ++ pre) cmd),
          d := outputData d (w.run (hist ++ pre) cmd),
          events := pre ++ [Event.start cmd (w.run (hist ++ pre) cmd)] }) := by
  unfold runProgram
  dsimp only
  by_cases h0 : (d.getList ("program" ++ attrSuffix kind)).length = 0
  · left
    exact ⟨List.length_eq_zero.1 h0, by rw [if_pos h0]⟩
  · right
    rw [if_neg h0]
    have hne : d.getList ("program" ++ attrSuffix kind) ≠ [] :=
      fun h => h0 (by rw [h]; rfl)
    cases hf : (d.getList ("program" ++ attrSuffix kind)).filter (fun a => a ≠ "") with
    | nil => left; exact ⟨hne, rfl, rfl⟩
    | cons p0 args =>
      right
      obtain ⟨js, hjs⟩ : ∃ js, jsonMarshal (d.getMap ("query" ++ attrSuffix kind)) = .ok js :=
        ⟨_, rfl⟩
      rw [hjs]
      dsimp only
      cases hl : (w.lookPath hist p0).2 with
      | some e => left; exact ⟨p0, args, e, rfl, hl, rfl⟩
      | none =>
        right
        dsimp only
        obtain ⟨hA, hE, hL, hErr⟩ := CommandContext_spec w
          (hist ++ [Event.lookPath p0 (w.lookPath hist p0).1 none]) p0 args
        generalize CommandContext w
          (hist ++ [Event.lookPath p0 (w.lookPath hist p0).1 none]) p0 args = made at *
        have hact : (match ctx.Value "tf_action" with
            | none => ""
            | some a => a) = actionOf ctx := rfl
        rw [hact]
        generalize hc : (if actionOf ctx ≠ "" then _ else _ : Cmd) = cmd
        have hcA : cmd.Args = p0 :: args := by rw [← hc]; split <;> exact hA
        have hcE : cmd.Env = envOf w ctx := by
          rw [← hc]; unfold envOf; split <;> simp_all
        have hcD : cmd.Dir = d.getString ("working_dir" ++ attrSuffix kind) := by
          rw [← hc]; split <;> rfl
        have hcS : cmd.Stdin = js := by rw [← hc]; split <;> rfl
        have hcR : cmd.Err = made.1.Err := by rw [← hc]; split <;> rfl
        have hpre : ∀ x ∈ [Event.lookPath p0 (w.lookPath hist p0).1 none] ++ made.2,
            ∃ p err, x = Event.lookPath p0 p err := by
          intro x hx
          rcases List.mem_append.1 hx with h | h
          · simp only [List.mem_singleton] at h
            exact ⟨_, _, h⟩
          · exact hL x h
        cases hce : cmd.Err with
        | some e =>
          left
          obtain ⟨p, hp⟩ := hErr e (hcR ▸ hce)
          refine ⟨p0, args, cmd, [Event.lookPath p0 (w.lookPath hist p0).1 none] ++ made.2, e,
            rfl, hl, hpre, ⟨p, List.mem_append_right _ hp⟩, ?_⟩
          rw [Cmd.Output_of_err w _ cmd e hce]
          simp
        | none =>
          right
          refine ⟨p0, args, cmd, [Event.lookPath p0 (w.lookPath hist p0).1 none] ++ made.2,
            rfl, hl, hpre, hcA, hcE, hcD, by rw [hcS], ?_⟩
          rw [Cmd.Output_of_ok w _ cmd hce]
          dsimp only
          unfold outputDiags outputData
          cases hr : (w.run (hist ++ ([Event.lookPath p0 (w.lookPath hist p0).1 none] ++ made.2))
            cmd).err with
          | some re =>
            cases re with
            | exitError stderr state => dsimp only; split <;> rfl
            | other text => rfl
          | none =>
            dsimp only
            cases hu : jsonUnmarshal (w.run
              (hist ++ ([Event.lookPath p0 (w.lookPath hist p0).1 none] ++ made.2)) cmd).stdout with
            | error err => rfl
            | ok result => rfl


/-! ## Facts shared by the properties -/

theorem attr_program_plain : "program" ++ attrSuffix "" = "program" := by decide

theorem attr_program_destroy : "program" ++ attrSuffix "destroy" = "program_destroy" := by decide

theorem getList_plain (d : ResourceData) :
    d.getList ("program" ++ attrSuffix "") = d.program := by
  rw [attr_program_plain]; rfl

theorem getList_destroy (d : ResourceData) :
    d.getList ("program" ++ attrSuffix "destroy") = d.program_destroy := by
  rw [attr_program_destroy]; rfl

theorem actionOf_withValue (ctx : Context) (a : String) :
    actionOf (ctx.WithValue "tf_action" a) = a := by
  simp [actionOf, Context.WithValue, Context.Value, GoMap.get]

theorem envOf_withValue (w : World) (ctx : Context) (a : String) (ha : a ≠ "") :
    envOf w (ctx.WithValue "tf_action" a) = some (w.environ ++ ["TF_EXTERNAL_ACTION=" ++ a]) := by
  simp [envOf, actionOf_withValue, ha]

theorem envOf_none (w : World) (ctx : Context) (h : ctx.Value "tf_action" = none) :
    envOf w ctx = none := by
  simp [envOf, actionOf, h]

theorem not_start_of_lookups (p0 : String) (pre : List Event)
    (hpre : ∀ x ∈ pre, ∃ p err, x = Event.lookPath p0 p err) (cmd : Cmd) (o : Output) :
    Event.start cmd o ∉ pre := by
  intro h
  obtain ⟨p, err, he⟩ := hpre _ h
  cases he

theorem find_of_filter (p : String → Bool) (l : List String) (a : String)
    (rest : List String) (h : l.filter p = a :: rest) : l.find? p = some a := by
  induction l with
  | nil => simp at h
  | cons x xs ih =>
    by_cases hx : p x = true
    · simp only [List.filter_cons, hx, if_true, List.cons.injEq] at h
      obtain ⟨rfl, _⟩ := h
      simp [List.find?_cons, hx]
    · simp only [List.filter_cons, hx] at h
      simp only [List.find?_cons]
      simp only [Bool.not_eq_true] at hx
      rw [hx]
      exact ih h

theorem filter_of_find (p : String → Bool) (l : List String) (a : String)
    (h : l.find? p = some a) : ∃ rest, l.filter p = a :: rest := by
  induction l with
  | nil => simp at h
  | cons x xs ih =>
    by_cases hx : p x = true
    · simp only [List.find?_cons, hx, Option.some.injEq] at h
      subst h
      exact ⟨xs.filter p, by simp [List.filter_cons, hx]⟩
    · simp only [Bool.not_eq_true] at hx
      simp only [List.find?_cons, hx] at h
      obtain ⟨rest, hr⟩ := ih h
      exact ⟨rest, by simp [List.filter_cons, hx, hr]⟩

/-- Every executable `runProgram` searches for is the first non-empty entry of
the program list. -/
theorem runProgram_lookup_file (w : World) (ctx : Context) (kind : String)
    (d : ResourceData) (hist : List Event) (f p : String) (e : Option String)
    (h : Event.lookPath f p e ∈ (runProgram w ctx kind d hist).events) :
    (d.getList ("program" ++ attrSuffix kind)).find? (fun a => a ≠ "") = some f := by
  rcases runProgram_spec w ctx kind d hist with
    ⟨_, hr⟩ | ⟨_, _, hr⟩ | ⟨p0, args, e2, hf, _, hr⟩ | ⟨p0, args, c, pre, e2, hf, _, hpre, _, hr⟩ |
    ⟨p0, args, c, pre, hf, _, hpre, _, _, _, _, hr⟩
  · rw [hr] at h; simp at h
  · rw [hr] at h; simp at h
  · rw [hr] at h
    simp only [List.mem_singleton, Event.lookPath.injEq] at h
    rw [h.1]
    exact find_of_filter _ _ _ _ hf
  · rw [hr] at h
    obtain ⟨p', e', he⟩ := hpre _ h
    cases he
    exact find_of_filter _ _ _ _ hf
  · rw [hr] at h
    rcases List.mem_append.1 h with h1 | h1
    · obtain ⟨p', e', he⟩ := hpre _ h1
      cases he
      exact find_of_filter _ _ _ _ hf
    · simp at h1

/-- Every command `runProgram` starts is the one it builds from the
configuration, the outcome follows from what `cmd.Output()` returned for it,
and it is the last interaction of the call. -/
theorem runProgram_start (w : World) (ctx : Context) (kind : String)
    (d : ResourceData) (hist : List Event) (cmd : Cmd) (o : Output)
    (h : Event.start cmd o ∈ (runProgram w ctx kind d hist).events) :
    cmd.Args = (d.getList ("program" ++ attrSuffix kind)).filter (fun a => a ≠ "") ∧
    cmd.Env = envOf w ctx ∧
    cmd.Dir = d.getString ("working_dir" ++ attrSuffix kind) ∧
    jsonMarshal (d.getMap ("query" ++ attrSuffix kind)) = .ok cmd.Stdin ∧
    (runProgram w ctx kind d hist).diags =
      outputDiags w ("program" ++ attrSuffix kind) cmd o ∧
    (runProgram w ctx kind d hist).d = outputData d o ∧
    ∃ pre, (runProgram w ctx kind d hist).events = pre ++ [Event.start cmd o] ∧
      (∀ c r, Event.start c r ∉ pre) ∧ o = w.run (hist ++ pre) cmd := by
  rcases runProgram_spec w ctx kind d hist with
    ⟨_, hr⟩ | ⟨_, _, hr⟩ | ⟨p0, args, e, _, _, hr⟩ | ⟨p0, args, c, pre, e, _, _, hpre, _, hr⟩ |
    ⟨p0, args, c, pre, hf, _, hpre, hA, hE, hD, hS, hr⟩
  · rw [hr] at h; simp at h
  · rw [hr] at h; simp at h
  · rw [hr] at h; simp at h
  · rw [hr] at h; exact absurd h (not_start_of_lookups p0 pre hpre cmd o)
  · rw [hr] at h ⊢
    rcases List.mem_append.1 h with h1 | h1
    · exact absurd h1 (not_start_of_lookups p0 pre hpre cmd o)
    · simp only [List.mem_singleton, Event.start.injEq] at h1
      obtain ⟨rfl, rfl⟩ := h1
      exact ⟨hf ▸ hA, hE, hD, hS, rfl, rfl, pre, rfl,
        fun c r => not_start_of_lookups p0 pre hpre c r, rfl⟩

/-- A call that starts no command leaves the resource data untouched. -/
theorem runProgram_d_of_no_start (w : World) (ctx : Context) (kind : String)
    (d : ResourceData) (hist : List Event)
    (h : ∀ cmd o, Event.start cmd o ∉ (runProgram w ctx kind d hist).events) :
    (runProgram w ctx kind d hist).d = d := by
  rcases runProgram_spec w ctx kind d hist with
    ⟨_, hr⟩ | ⟨_, _, hr⟩ | ⟨p0, args, e, _, _, hr⟩ | ⟨p0, args, c, pre, e, _, _, hpre, _, hr⟩ |
    ⟨p0, args, c, pre, hf, _, hpre, hA, hE, hD, hS, hr⟩
  · rw [hr]
  · rw [hr]
  · rw [hr]
  · rw [hr]
  · rw [hr] at h
    exact absurd (List.mem_append_right _ (List.mem_singleton.2 rfl)) (h c _)

/-- Every diagnostic `runProgram` returns has severity Error. -/
theorem runProgram_diags_severity (w : World) (ctx : Context) (kind : String)
    (d : ResourceData) (hist : List Event) :
    ∀ x ∈ (runProgram w ctx kind d hist).diags, x.severity = Severity.Error := by
  rcases runProgram_spec w ctx kind d hist with
    ⟨_, hr⟩ | ⟨_, _, hr⟩ | ⟨p0, args, e, _, _, hr⟩ | ⟨p0, args, c, pre, e, _, _, hpre, _, hr⟩ |
    ⟨p0, args, c, pre, hf, _, hpre, hA, hE, hD, hS, hr⟩
  · rw [hr]; simp
  · rw [hr]; simp [missingDiag]
  · rw [hr]; simp [lookupDiag]
  · rw [hr]; simp [launchDiag]
  · rw [hr]
    intro x hx
    simp only [outputDiags] at hx
    split at hx
    · split at hx <;> simp at hx <;> subst hx <;> rfl
    · simp at hx; subst hx; rfl
    · split at hx
      · simp at hx; subst hx; rfl
      · simp at hx

theorem runProgram_hasError (w : World) (ctx : Context) (kind : String)
    (d : ResourceData) (hist : List Event)
    (h : (runProgram w ctx kind d hist).diags ≠ []) :
    (runProgram w ctx kind d hist).diags.HasError = true := by
  have hs := runProgram_diags_severity w ctx kind d hist
  cases hd : (runProgram w ctx kind d hist).diags with
  | nil => exact absurd hd h
  | cons x xs =>
    rw [hd] at hs
    simp [Diagnostics.HasError, hs x (List.mem_cons_self _ _)]

/-- A call that returns a diagnostic leaves the resource data untouched. -/
theorem runProgram_d_of_diags (w : World) (ctx : Context) (kind : String)
    (d : ResourceData) (hist : List Event)
    (h : (runProgram w ctx kind d hist).diags ≠ []) :
    (runProgram w ctx kind d hist).d = d := by
  rcases runProgram_spec w ctx kind d hist with
    ⟨_, hr⟩ | ⟨_, _, hr⟩ | ⟨p0, args, e, _, _, hr⟩ | ⟨p0, args, c, pre, e, _, _, hpre, _, hr⟩ |
    ⟨p0, args, c, pre, hf, _, hpre, hA, hE, hD, hS, hr⟩
  · rw [hr]
  · rw [hr]
  · rw [hr]
  · rw [hr]
  · rw [hr] at h ⊢
    simp only [outputDiags, outputData] at h ⊢
    split
    · rfl
    · split
      · rfl
      · rename_i h1 _ _ h2
        simp [h1, h2] at h

/-- The attributes other than `result` and `id` are never written. -/
theorem runProgram_config (w : World) (ctx : Context) (kind : String)
    (d : ResourceData) (hist : List Event) :
    (runProgram w ctx kind d hist).d.program = d.program ∧
    (runProgram w ctx kind d hist).d.working_dir = d.working_dir ∧
    (runProgram w ctx kind d hist).d.query = d.query ∧
    (runProgram w ctx kind d hist).d.program_destroy = d.program_destroy := by
  rcases runProgram_spec w ctx kind d hist with
    ⟨_, hr⟩ | ⟨_, _, hr⟩ | ⟨p0, args, e, _, _, hr⟩ | ⟨p0, args, c, pre, e, _, _, hpre, _, hr⟩ |
    ⟨p0, args, c, pre, hf, _, hpre, hA, hE, hD, hS, hr⟩
  · rw [hr]; simp
  · rw [hr]; simp
  · rw [hr]; simp
  · rw [hr]; simp
  · rw [hr]
    simp only [outputData]
    split
    · simp
    · split <;> simp [ResourceData.Set, ResourceData.SetId]

theorem ResourceData.result_Set (d : ResourceData) (m : GoMap) (v : String) :
    ((d.Set "result" m).SetId v).result = m.filter (fun p => storableKey p.1) := by
  simp [ResourceData.Set, ResourceData.SetId]

theorem ResourceData.Set_Set (d : ResourceData) (m1 m : GoMap) (v1 v : String) :
    (((d.Set "result" m1).SetId v1).Set "result" m).SetId v = (d.Set "result" m).SetId v := by
  simp [ResourceData.Set, ResourceData.SetId]

theorem GoMap.get_filter_storable (m : GoMap) (k : String) :
    GoMap.get (m.filter (fun p => storableKey p.1)) k =
      if storableKey k = true then GoMap.get m k else none := by
  induction m with
  | nil => simp [GoMap.get]
  | cons p r ih =>
    obtain ⟨x, y⟩ := p
    by_cases hx : storableKey x = true
    · simp only [List.filter_cons, hx, if_true]
      by_cases hk : x = k
      · subst hk
        simp [GoMap.get, hx]
      · simp only [GoMap.get, hk, if_false]
        exact ih
    · simp only [List.filter_cons, hx, if_false, Bool.false_eq_true]
      rw [ih]
      by_cases hk : x = k
      · subst hk
        simp [hx]
      · simp [GoMap.get, hk]

theorem decodeMembers_error (ms : List (String × JValue)) :
    ∀ (m : GoMap) (e : UnmarshalError), (decodeMembers ms m (some e)).2 = some e := by
  induction ms with
  | nil => intro m e; rfl
  | cons p r ih =>
    intro m e
    obtain ⟨k, v⟩ := p
    cases v <;> simp [decodeMembers, saveError, ih]

theorem decodeMembers_none_iff (ms : List (String × JValue)) :
    ∀ (m : GoMap), (decodeMembers ms m none).2 = none ↔
      ∀ p ∈ ms, p.2.isStringOrNull = true := by
  induction ms with
  | nil => intro m; simp [decodeMembers]
  | cons p r ih =>
    intro m
    obtain ⟨k, v⟩ := p
    cases v <;>
      simp [decodeMembers, saveError, decodeMembers_error, JValue.isStringOrNull, ih]

/-- The decoder accepts exactly the documents `acceptedDocument` describes. -/
theorem jsonUnmarshal_ok_iff (data : String) :
    (∃ m, jsonUnmarshal data = .ok m) ↔ acceptedDocument data = true := by
  unfold jsonUnmarshal acceptedDocument
  cases h : parseJSON data.data with
  | none => simp
  | some v =>
    cases v with
    | object ms =>
      have := decodeMembers_none_iff ms []
      dsimp only
      cases hd : decodeMembers ms [] none with
      | mk m err =>
        rw [hd] at this
        cases err with
        | none => simpa using this
        | some e =>
          simp only [reduceCtorEq, exists_false, false_iff]
          intro hall
          have := this.2 (by simpa using hall)
          cases this
    | null => simp
    | bool b => simp
    | number t => simp
    | str s => simp
    | array xs => simp

theorem resourceExternalUpdate_of_error (w : World) (ctx : Context) (d : ResourceData)
    (hist : List Event)
    (h : (runProgram w (ctx.WithValue "tf_action" "update") "destroy" d hist).diags ≠ []) :
    resourceExternalUpdate w ctx d hist =
      runProgram w (ctx.WithValue "tf_action" "update") "destroy" d hist := by
  have he := runProgram_hasError _ _ _ _ _ h
  simp only [resourceExternalUpdate, he, if_true]

theorem resourceExternalUpdate_of_ok (w : World) (ctx : Context) (d : ResourceData)
    (hist : List Event)
    (h : (runProgram w (ctx.WithValue "tf_action" "update") "destroy" d hist).diags = []) :
    resourceExternalUpdate w ctx d hist =
      { diags := (runProgram w (ctx.WithValue "tf_action" "update") ""
          (runProgram w (ctx.WithValue "tf_action" "update") "destroy" d hist).d
          (hist ++ (runProgram w (ctx.WithValue "tf_action" "update") "destroy" d hist).events)).diags,
        d := (runProgram w (ctx.WithValue "tf_action" "update") ""
          (runProgram w (ctx.WithValue "tf_action" "update") "destroy" d hist).d
          (hist ++ (runProgram w (ctx.WithValue "tf_action" "update") "destroy" d hist).events)).d,
        events := (runProgram w (ctx.WithValue "tf_action" "update") "destroy" d hist).events ++
          (runProgram w (ctx.WithValue "tf_action" "update") ""
          (runProgram w (ctx.WithValue "tf_action" "update") "destroy" d hist).d
          (hist ++ (runProgram w (ctx.WithValue "tf_action" "update") "destroy" d hist).events)).events } := by
  simp [resourceExternalUpdate, h, Diagnostics.HasError]

theorem startedCmds_append (a b : List Event) :
    startedCmds (a ++ b) = startedCmds a ++ startedCmds b := by
  induction a with
  | nil => rfl
  | cons x xs ih => cases x <;> simp [startedCmds, ih]

theorem startedCmds_lookups (p0 : String) (pre : List Event)
    (hpre : ∀ x ∈ pre, ∃ p err, x = Event.lookPath p0 p err) : startedCmds pre = [] := by
  induction pre with
  | nil => rfl
  | cons x xs ih =>
    obtain ⟨p, err, hx⟩ := hpre x (List.mem_cons_self _ _)
    subst hx
    simp only [startedCmds]
    exact ih (fun y hy => hpre y (List.mem_cons_of_mem _ hy))

/-- A call of `runProgram` starts at most one command. -/
theorem runProgram_startedCmds (w : World) (ctx : Context) (kind : String)
    (d : ResourceData) (hist : List Event) :
    startedCmds (runProgram w ctx kind d hist).events = [] ∨
    ∃ c o, Event.start c o ∈ (runProgram w ctx kind d hist).events ∧
      startedCmds (runProgram w ctx kind d hist).events = [c] := by
  rcases runProgram_spec w ctx kind d hist with
    ⟨_, hr⟩ | ⟨_, _, hr⟩ | ⟨p0, args, e, _, _, hr⟩ | ⟨p0, args, c, pre, e, _, _, hpre, _, hr⟩ |
    ⟨p0, args, c, pre, hf, _, hpre, _, _, _, _, hr⟩
  · left; rw [hr]; rfl
  · left; rw [hr]; rfl
  · left; rw [hr]; rfl
  · left; rw [hr]; exact startedCmds_lookups p0 pre hpre
  · right
    refine ⟨c, w.run (hist ++ pre) c, by rw [hr]; simp, ?_⟩
    rw [hr]
    simp only [startedCmds_append, startedCmds_lookups p0 pre hpre]
    rfl

/-- The two shapes of an update: the outcome of the destroy step alone, or
the destroy step without a diagnostic followed by the normal step. -/
theorem resourceExternalUpdate_shape (w : World) (ctx : Context) (d : ResourceData)
    (hist : List Event) :
    ((runProgram w (ctx.WithValue "tf_action" "update") "destroy" d hist).diags ≠ [] ∧
      resourceExternalUpdate w ctx d hist =
        runProgram w (ctx.WithValue "tf_action" "update") "destroy" d hist) ∨
    ((runProgram w (ctx.WithValue "tf_action" "update") "destroy" d hist).diags = [] ∧
      ∃ d1 h1, d1 = (runProgram w (ctx.WithValue "tf_action" "update") "destroy" d hist).d ∧
        (resourceExternalUpdate w ctx d hist).diags =
          (runProgram w (ctx.WithValue "tf_action" "update") "" d1 h1).diags ∧
        (resourceExternalUpdate w ctx d hist).d =
          (runProgram w (ctx.WithValue "tf_action" "update") "" d1 h1).d ∧
        (resourceExternalUpdate w ctx d hist).events =
          (runProgram w (ctx.WithValue "tf_action" "update") "destroy" d hist).events ++
          (runProgram w (ctx.WithValue "tf_action" "update") "" d1 h1).events) := by
  by_cases h : (runProgram w (ctx.WithValue "tf_action" "update") "destroy" d hist).diags = []
  · right
    refine ⟨h, _,
      hist ++ (runProgram w (ctx.WithValue "tf_action" "update") "destroy" d hist).events,
      rfl, ?_, ?_, ?_⟩ <;> rw [resourceExternalUpdate_of_ok w ctx d hist h]
  · left
    exact ⟨h, resourceExternalUpdate_of_error w ctx d hist h⟩

/-- Every command an update starts carries the action `update`. -/
theorem resourceExternalUpdate_env (w : World) (ctx : Context) (d : ResourceData)
    (hist : List Event) (cmd : Cmd) (o : Output)
    (h : Event.start cmd o ∈ (resourceExternalUpdate w ctx d hist).events) :
    cmd.Env = some (w.environ ++ ["TF_EXTERNAL_ACTION=update"]) := by
  have henv := envOf_withValue w ctx "update" (by decide)
  rcases resourceExternalUpdate_shape w ctx d hist with ⟨_, hr⟩ | ⟨_, d1, h1, _, _, _, he⟩
  · rw [hr] at h
    rw [(runProgram_start _ _ _ _ _ _ _ h).2.1, henv]; rfl
  · rw [he] at h
    rcases List.mem_append.1 h with h2 | h2
    · rw [(runProgram_start _ _ _ _ _ _ _ h2).2.1, henv]; rfl
    · rw [(runProgram_start _ _ _ _ _ _ _ h2).2.1, henv]; rfl

/-- A call that returns no diagnostic after starting a command has stored the
decoded standard output of that command. -/
theorem runProgram_result_of_start (w : World) (ctx : Context) (kind : String)
    (d : ResourceData) (hist : List Event) (cmd : Cmd) (o : Output)
    (h : Event.start cmd o ∈ (runProgram w ctx kind d hist).events)
    (hd : (runProgram w ctx kind d hist).diags = []) :
    ∃ m, jsonUnmarshal o.stdout = .ok m ∧
      (runProgram w ctx kind d hist).d = (d.Set "result" m).SetId "-" := by
  obtain ⟨_, _, _, _, hdi, hda, _⟩ := runProgram_start _ _ _ _ _ _ _ h
  rw [hdi] at hd
  rw [hda]
  simp only [outputDiags, outputData] at hd ⊢
  split at hd
  · split at hd <;> simp at hd
  · simp at hd
  · rename_i he
    split at hd
    · simp at hd
    · rename_i m hm
      refine ⟨m, hm, ?_⟩
      simp only [he, hm]

theorem containsText_of_eq (detail s a b : String) (h : detail = a ++ s ++ b) :
    containsText detail s :=
  ⟨a.data, b.data, by rw [h]; simp [String.data_append]⟩

theorem length_pos_of_ne (s : String) (h : s ≠ "") : s.length > 0 := by
  cases s with
  | mk data =>
    cases data with
    | nil => exact absurd rfl h
    | cons c cs => simp [String.length]

theorem length_zero_of_eq (s : String) (h : s = "") : ¬ s.length > 0 := by
  subst h
  decide

/-- The first thing a call with a program does is to search for it. -/
theorem runProgram_first_event (w : World) (ctx : Context) (kind : String)
    (d : ResourceData) (hist : List Event) (p0 : String) (args : List String)
    (hf : (d.getList ("program" ++ attrSuffix kind)).filter (fun a => a ≠ "") = p0 :: args) :
    (runProgram w ctx kind d hist).events.head? =
      some (Event.lookPath p0 (w.lookPath hist p0).1 (w.lookPath hist p0).2) := by
  have h0 : ¬ (d.getList ("program" ++ attrSuffix kind)).length = 0 := by
    intro h
    rw [List.length_eq_zero.1 h] at hf
    cases hf
  unfold runProgram
  dsimp only
  rw [if_neg h0, hf]
  obtain ⟨js, hjs⟩ : ∃ js, jsonMarshal (d.getMap ("query" ++ attrSuffix kind)) = .ok js :=
    ⟨_, rfl⟩
  rw [hjs]
  dsimp only
  repeat' split
  all_goals simp

/-! ## C1: round trip -/

/-- C1, as stated, fails: with the program `cat` and a query that has a
member named `#`, the program receives and echoes the whole query, `runProgram`
returns no diagnostic, and yet `result` does not hold the member `#`. -/
theorem runProgram_round_trip_counterexample :
    (runProgram demoWorld hostContext ""
      (demoData ["cat"] [("#", "x"), ("a", "b")] []) []).diags = [] ∧
    (startedCmds (runProgram demoWorld hostContext ""
      (demoData ["cat"] [("#", "x"), ("a", "b")] []) []).events).map (fun c => c.Stdin) =
      ["\x7b\"#\":\"x\",\"a\":\"b\"\x7d"] ∧
    jsonUnmarshal "\x7b\"#\":\"x\",\"a\":\"b\"\x7d" = .ok [("#", "x"), ("a", "b")] ∧
    (runProgram demoWorld hostContext ""
      (demoData ["cat"] [("#", "x"), ("a", "b")] []) []).d.result = [("a", "b")] ∧
    GoMap.get (runProgram demoWorld hostContext ""
      (demoData ["cat"] [("#", "x"), ("a", "b")] []) []).d.result "#" = none ∧
    GoMap.get (demoData ["cat"] [("#", "x"), ("a", "b")] []).query "#" = some "x" := by
  decide

/-- C1, amended. Round trip. When the program list has a non-empty entry,
every lookup the call makes resolves, and the program started exits 0 with
exactly its standard input on its standard output, `runProgram` returns no
diagnostic, sets the id, and sets `result` to the query (whose keys are
distinct, as in any map) without its members named `%` and `#`: every other
key has the value it has in the query. So `result` has the same keys and the
same value for each key as the query whenever the query has no member named
`%` or `#`. Decoding the encoded query gives back the query up to the order of
its keys, for every query. -/
theorem runProgram_round_trip (w : World) (ctx : Context) (kind : String)
    (d : ResourceData) (hist : List Event)
    (hprog : ∃ a ∈ d.getList ("program" ++ attrSuffix kind), a ≠ "")
    (hlook : ∀ f p e, Event.lookPath f p e ∈ (runProgram w ctx kind d hist).events → e = none)
    (hecho : ∀ cmd o, Event.start cmd o ∈ (runProgram w ctx kind d hist).events →
      o = { stdout := cmd.Stdin, err := none })
    (hkeys : ((d.getMap ("query" ++ attrSuffix kind)).map Prod.fst).Nodup) :
    (runProgram w ctx kind d hist).diags = [] ∧
    (∀ k, GoMap.get (runProgram w ctx kind d hist).d.result k =
      if k ≠ "%" ∧ k ≠ "#" then GoMap.get (d.getMap ("query" ++ attrSuffix kind)) k
      else none) ∧
    ((∀ p ∈ d.getMap ("query" ++ attrSuffix kind), p.1 ≠ "%" ∧ p.1 ≠ "#") →
      ∀ k, GoMap.get (runProgram w ctx kind d hist).d.result k =
        GoMap.get (d.getMap ("query" ++ attrSuffix kind)) k) ∧
    (runProgram w ctx kind d hist).d.id = "-" ∧
    (∃ cmd, Event.start cmd { stdout := cmd.Stdin, err := none } ∈
      (runProgram w ctx kind d hist).events) ∧
    (∃ js r, jsonMarshal (d.getMap ("query" ++ attrSuffix kind)) = .ok js ∧
      jsonUnmarshal js = .ok r ∧
      ∀ k, GoMap.get r k = GoMap.get (d.getMap ("query" ++ attrSuffix kind)) k) := by
  obtain ⟨js, r, hjs, hr, hget⟩ := jsonUnmarshal_jsonMarshal _ hkeys
  obtain ⟨a, ha, hane⟩ := hprog
  have hfa : a ∈ (d.getList ("program" ++ attrSuffix kind)).filter (fun a => a ≠ "") :=
    List.mem_filter.2 ⟨ha, by simpa using hane⟩
  rcases runProgram_spec w ctx kind d hist with
    ⟨h0, _⟩ | ⟨_, h0, _⟩ | ⟨p0, args, e, _, _, hrun⟩ |
    ⟨p0, args, c, pre, e, _, _, hpre, ⟨p, hp⟩, hrun⟩ |
    ⟨p0, args, c, pre, hf, _, hpre, hA, hE, hD, hS, hrun⟩
  · rw [h0] at ha; simp at ha
  · rw [h0] at hfa; simp at hfa
  · have := hlook p0 (w.lookPath hist p0).1 (some e) (by rw [hrun]; simp)
    cases this
  · have := hlook p0 p (some e) (by rw [hrun]; exact hp)
    cases this
  · have ho := hecho c (w.run (hist ++ pre) c) (by rw [hrun]; simp)
    have hjc : js = c.Stdin := by
      rw [hjs] at hS
      cases hS
      rfl
    subst hjc
    have hd : (runProgram w ctx kind d hist).d = (d.Set "result" r).SetId "-" := by
      rw [hrun]
      simp only [outputData]
      rw [ho]
      simp only [hr]
    have hres : ∀ k, GoMap.get (runProgram w ctx kind d hist).d.result k =
        if k ≠ "%" ∧ k ≠ "#" then GoMap.get (d.getMap ("query" ++ attrSuffix kind)) k
        else none := by
      intro k
      rw [hd, ResourceData.result_Set, GoMap.get_filter_storable, hget k]
      by_cases h1 : k = "%"
      · subst h1; simp [storableKey]
      · by_cases h2 : k = "#"
        · subst h2; simp [storableKey]
        · simp [storableKey, h1, h2]
    refine ⟨?_, hres, ?_, ?_, ⟨c, ?_⟩, ⟨_, r, hjs, hr, hget⟩⟩
    · rw [hrun]
      simp only [outputDiags]
      rw [ho]
      simp only [hr]
    · intro hall k
      rw [hres k]
      by_cases hk : k ≠ "%" ∧ k ≠ "#"
      · rw [if_pos hk]
      · rw [if_neg hk]
        symm
        apply GoMap.get_eq_none
        intro hmem
        obtain ⟨q, hq, rfl⟩ := List.mem_map.1 hmem
        exact hk (hall q hq)
    · rw [hd]
      rfl
    · rw [hrun, ← ho]
      simp

/-- C1 amended, at a concrete input: program `cat` and query `a = b` give
`a = b`. -/
theorem runProgram_round_trip_witness :
    (runProgram demoWorld hostContext "" (demoData ["cat"] [("a", "b")] []) []).d.result =
      [("a", "b")] ∧
    (runProgram demoWorld hostContext "" (demoData ["cat"] [("a", "b")] []) []).diags = [] ∧
    (∀ k, GoMap.get
        (runProgram demoWorld hostContext "" (demoData ["cat"] [("a", "b")] []) []).d.result k =
      GoMap.get [("a", "b")] k) ∧
    jsonMarshal [] = .ok "\x7b\x7d" :=
  have hev : (runProgram demoWorld hostContext "" (demoData ["cat"] [("a", "b")] []) []).events =
      [Event.lookPath "cat" "/bin/cat" none, Event.lookPath "cat" "/bin/cat" none,
        Event.start { Path := "/bin/cat", Args := ["cat"], Env := none, Dir := "",
                      Stdin := "\x7b\"a\":\"b\"\x7d", Err := none }
          { stdout := "\x7b\"a\":\"b\"\x7d", err := none }] := by decide
  have h := runProgram_round_trip demoWorld hostContext ""
    (demoData ["cat"] [("a", "b")] []) []
    ⟨"cat", by decide, by decide⟩
    (by
      intro f p e he
      rw [hev] at he
      simp at he
      exact he.2.2)
    (by
      intro cmd o he
      rw [hev] at he
      simp at he
      obtain ⟨rfl, rfl⟩ := he
      rfl)
    (by decide)
  ⟨by decide, h.1, h.2.2.1 (by decide), by decide⟩

/-! ## C2: a failed destroy step aborts the update -/

/-- C2. Update abort. When the destroy-variant step of an update returns a
diagnostic, the diagnostic is an error, `resourceExternalUpdate` returns
exactly the outcome of that step (its diagnostic, the untouched resource data
and its interactions with the system and no others), the destroy variant is
configured, and every command started is the destroy variant's: the normal
variant is neither looked up nor started. -/
theorem resourceExternalUpdate_abort (w : World) (ctx : Context) (d : ResourceData)
    (hist : List Event)
    (hfail : (runProgram w (ctx.WithValue "tf_action" "update") "destroy" d hist).diags ≠ []) :
    resourceExternalUpdate w ctx d hist =
      runProgram w (ctx.WithValue "tf_action" "update") "destroy" d hist ∧
    (resourceExternalUpdate w ctx d hist).diags.HasError = true ∧
    (resourceExternalUpdate w ctx d hist).d = d ∧
    d.program_destroy ≠ [] ∧
    (∀ cmd o, Event.start cmd o ∈ (resourceExternalUpdate w ctx d hist).events →
      cmd.Args = d.program_destroy.filter (fun a => a ≠ "") ∧
      cmd.Dir = d.working_dir_destroy ∧
      jsonMarshal d.query_destroy = .ok cmd.Stdin) ∧
    (∀ f p e, Event.lookPath f p e ∈ (resourceExternalUpdate w ctx d hist).events →
      d.program_destroy.find? (fun a => a ≠ "") = some f) := by
  have heq := resourceExternalUpdate_of_error w ctx d hist hfail
  rw [heq]
  refine ⟨rfl, runProgram_hasError _ _ _ _ _ hfail, runProgram_d_of_diags _ _ _ _ _ hfail,
    ?_, ?_, ?_⟩
  · intro h0
    rcases runProgram_spec w (ctx.WithValue "tf_action" "update") "destroy" d hist with
      ⟨_, hr⟩ | ⟨h1, _, _⟩ | ⟨p0, args, e, hf, _, _⟩ | ⟨p0, args, c, pre, e, hf, _⟩ |
      ⟨p0, args, c, pre, hf, _⟩
    · rw [hr] at hfail; exact hfail rfl
    · exact h1 (by rw [getList_destroy]; exact h0)
    · rw [getList_destroy, h0] at hf; simp at hf
    · rw [getList_destroy, h0] at hf; simp at hf
    · rw [getList_destroy, h0] at hf; simp at hf
  · intro cmd o h
    obtain ⟨hA, _, hD, hS, _⟩ := runProgram_start _ _ _ _ _ _ _ h
    rw [getList_destroy] at hA
    exact ⟨hA, hD, hS⟩
  · intro f p e h
    have := runProgram_lookup_file _ _ _ _ _ _ _ _ h
    rw [getList_destroy] at this
    exact this

/-- C2, at a concrete input: the destroy program `boom` fails, and the update
returns its diagnostic without any interaction for the normal program `cat`. -/
theorem resourceExternalUpdate_abort_witness :
    (resourceExternalUpdate demoWorld hostContext (demoData ["cat"] [] ["boom"]) []).diags ≠ [] ∧
    startedCmds
      (resourceExternalUpdate demoWorld hostContext (demoData ["cat"] [] ["boom"]) []).events =
      [{ Path := "/bin/boom", Args := ["boom"],
         Env := some ["PATH=/bin", "TF_EXTERNAL_ACTION=update"], Dir := "",
         Stdin := "\x7b\x7d", Err := none }] ∧
    resourceExternalUpdate demoWorld hostContext (demoData ["cat"] [] ["boom"]) [] =
      runProgram (demoWorld) (hostContext.WithValue "tf_action" "update") "destroy"
        (demoData ["cat"] [] ["boom"]) [] :=
  ⟨by decide, by decide,
    (resourceExternalUpdate_abort demoWorld hostContext (demoData ["cat"] [] ["boom"]) []
      (by decide)).1⟩

/-! ## C3: what the result decoder accepts -/

/-- C3, evaluated at the failing inputs, with what the decoder does in
general. The program `nulls` exits 0 and prints an object whose only member is
`null`: `runProgram` returns no diagnostic and stores the member as the empty
string; a document that is just `null` decodes without an error into the empty
map. In general, for a command that exited 0 with the standard output `so`:
when `so` is well-formed with a top-level `null` or a top-level object whose
values are strings or `null`, `runProgram` returns no diagnostic and stores
the decoded map with `d.Set`; for every other output (malformed text, a top-level array,
number, boolean or string, an object with a nested object, array, number or
boolean) it leaves the resource data as it was and returns the one error
diagnostic `Unexpected External Program Results` on the variant-qualified
program attribute. -/
theorem runProgram_result_decoding :
    ((runProgram demoWorld hostContext "" (demoData ["nulls"] [] []) []).diags = [] ∧
      (runProgram demoWorld hostContext "" (demoData ["nulls"] [] []) []).d.result =
        [("a", "")] ∧
      jsonUnmarshal "\x7b\"a\":null\x7d" = .ok [("a", "")] ∧
      jsonUnmarshal "null" = .ok []) ∧
    (jsonUnmarshal "[1,2,3]" = .error (UnmarshalError.typeError "array" "map[string]string") ∧
      jsonUnmarshal "\x7b\"a\":1\x7d" = .error (UnmarshalError.typeError "number" "string") ∧
      jsonUnmarshal "\x7b\"a\":\x7b\x7d\x7d" =
        .error (UnmarshalError.typeError "object" "string") ∧
      jsonUnmarshal "not json" = .error UnmarshalError.syntaxError) ∧
    (∀ (w : World) (ctx : Context) (kind : String) (d : ResourceData) (hist : List Event)
      (cmd : Cmd) (so : String),
      Event.start cmd { stdout := so, err := none } ∈ (runProgram w ctx kind d hist).events →
      (acceptedDocument so = true →
        (runProgram w ctx kind d hist).diags = [] ∧
        ∃ m, jsonUnmarshal so = .ok m ∧
          (runProgram w ctx kind d hist).d = (d.Set "result" m).SetId "-") ∧
      (acceptedDocument so = false →
        (runProgram w ctx kind d hist).d = d ∧
        ∃ x, (runProgram w ctx kind d hist).diags = [x] ∧
          x.severity = Severity.Error ∧
          x.summary = "Unexpected External Program Results" ∧
          x.attributePath = "program" ++ attrSuffix kind)) := by
  refine ⟨by decide, by decide, ?_⟩
  intro w ctx kind d hist cmd so h
  obtain ⟨_, _, _, _, hdi, hda, _⟩ := runProgram_start _ _ _ _ _ _ _ h
  rw [hdi, hda]
  constructor
  · intro hacc
    obtain ⟨m, hm⟩ := (jsonUnmarshal_ok_iff so).2 hacc
    refine ⟨?_, m, hm, ?_⟩
    · simp only [outputDiags, hm]
    · simp only [outputData, hm]
  · intro hrej
    cases hu : jsonUnmarshal so with
    | ok m =>
      have := (jsonUnmarshal_ok_iff so).1 ⟨m, hu⟩
      rw [hrej] at this
      cases this
    | error e =>
      refine ⟨?_, resultsDiag ("program" ++ attrSuffix kind) cmd.Path
        (e.text (w.syntaxErrorText so)), ?_, rfl, rfl, rfl⟩
      · simp only [outputData, hu]
      · simp only [outputDiags, hu]

/-! ## C4: a program list without a program -/

/-- C4. Missing program. The schema requires `program` and at least one
element of it (Required, MinItems: 1), so the list the normal variant receives
is not empty. When all of its entries are empty strings, `runProgram` for the
normal variant, and with it `dataSourceRead` and `resourceExternalCreate`,
searches for no executable and starts no process, leaves the resource data
untouched, and returns exactly one diagnostic: the error with summary
`External Program Missing`, attributed to the attribute `program`. -/
theorem runProgram_missing (w : World) (ctx : Context) (d : ResourceData)
    (hist : List Event) (hmin : d.program ≠ []) (hall : ∀ a ∈ d.program, a = "") :
    ∀ out, (out = runProgram w ctx "" d hist ∨ out = dataSourceRead w ctx d hist ∨
        out = resourceExternalCreate w ctx d hist) →
      out.events = [] ∧ out.d = d ∧
      ∃ x, out.diags = [x] ∧ x.severity = Severity.Error ∧
        x.summary = "External Program Missing" ∧
        x.detail = missingDetail ∧ x.attributePath = "program" := by
  have hfilter : d.program.filter (fun a => a ≠ "") = [] := by
    rw [List.filter_eq_nil_iff]
    intro a ha
    simp [hall a ha]
  have key : ∀ c : Context, runProgram w c "" d hist =
      { diags := [missingDiag "program"], d := d, events := [] } := by
    intro c
    rcases runProgram_spec w c "" d hist with
      ⟨h0, hr⟩ | ⟨h0, _, hr⟩ | ⟨p0, args, e, hf, _⟩ | ⟨p0, args, cm, pre, e, hf, _⟩ |
      ⟨p0, args, cm, pre, hf, _⟩
    · rw [getList_plain] at h0; exact absurd h0 hmin
    · rw [attr_program_plain] at hr; exact hr
    · rw [getList_plain, hfilter] at hf; cases hf
    · rw [getList_plain, hfilter] at hf; cases hf
    · rw [getList_plain, hfilter] at hf; cases hf
  have fin : ∀ c : Context,
      (runProgram w c "" d hist).events = [] ∧ (runProgram w c "" d hist).d = d ∧
      ∃ x, (runProgram w c "" d hist).diags = [x] ∧ x.severity = Severity.Error ∧
        x.summary = "External Program Missing" ∧
        x.detail = missingDetail ∧ x.attributePath = "program" := by
    intro c
    rw [key c]
    exact ⟨rfl, rfl, missingDiag "program", rfl, rfl, rfl, rfl, rfl⟩
  rintro out (rfl | rfl | rfl)
  · exact fin ctx
  · exact fin ctx
  · exact fin (ctx.WithValue "tf_action" "create")

/-- C4, at a concrete input: a list of two empty strings. -/
theorem runProgram_missing_witness :
    (runProgram demoWorld hostContext "" (demoData ["", ""] [] []) []).events = [] ∧
    ∃ x, (runProgram demoWorld hostContext "" (demoData ["", ""] [] []) []).diags = [x] ∧
      x.severity = Severity.Error ∧ x.summary = "External Program Missing" ∧
      x.attributePath = "program" :=
  have h := runProgram_missing demoWorld hostContext (demoData ["", ""] [] []) []
    (by decide) (by decide) _ (Or.inl rfl)
  match h with
  | ⟨h1, _, x, h3, h4, h5, _, h7⟩ => ⟨h1, x, h3, h4, h5, h7⟩

/-! ## C5: the actions an update sends -/

/-- C5, as stated, fails: in an update with both variants configured, the
destroy-variant program `one` is started first and the normal-variant program
`cat` second, and both are given `TF_EXTERNAL_ACTION=update`; neither is given
`TF_EXTERNAL_ACTION=delete`. -/
theorem resourceExternalUpdate_action_counterexample :
    (startedCmds
      (resourceExternalUpdate demoWorld hostContext (demoData ["cat"] [] ["one"]) []).events).map
        (fun c => (c.Args, c.Env)) =
      [(["one"], some ["PATH=/bin", "TF_EXTERNAL_ACTION=update"]),
       (["cat"], some ["PATH=/bin", "TF_EXTERNAL_ACTION=update"])] ∧
    ¬ ∃ c ∈ startedCmds
        (resourceExternalUpdate demoWorld hostContext (demoData ["cat"] [] ["one"]) []).events,
      ∃ env, c.Env = some env ∧ "TF_EXTERNAL_ACTION=delete" ∈ env := by
  have h : startedCmds
      (resourceExternalUpdate demoWorld hostContext (demoData ["cat"] [] ["one"]) []).events =
      [{ Path := "/bin/one", Args := ["one"],
         Env := some ["PATH=/bin", "TF_EXTERNAL_ACTION=update"], Dir := "",
         Stdin := "\x7b\x7d", Err := none },
       { Path := "/bin/cat", Args := ["cat"],
         Env := some ["PATH=/bin", "TF_EXTERNAL_ACTION=update"], Dir := "",
         Stdin := "\x7b\x7d", Err := none }] := by decide
  rw [h]
  refine ⟨by decide, ?_⟩
  rintro ⟨c, hc, env, he, hm⟩
  simp only [List.mem_cons, List.mem_singleton, List.not_mem_nil, or_false] at hc
  rcases hc with rfl | rfl
  · simp only [Option.some.injEq] at he
    subst he
    revert hm
    decide
  · simp only [Option.some.injEq] at he
    subst he
    revert hm
    decide

/-- C5, amended. In every resource update, every command started is given the
inherited environment plus `TF_EXTERNAL_ACTION=update`, and when two commands
are started the first is the destroy variant's and the second the normal
variant's. -/
theorem resourceExternalUpdate_actions (w : World) (ctx : Context) (d : ResourceData)
    (hist : List Event) :
    (∀ cmd o, Event.start cmd o ∈ (resourceExternalUpdate w ctx d hist).events →
      cmd.Env = some (w.environ ++ ["TF_EXTERNAL_ACTION=update"])) ∧
    (∀ c1 c2, startedCmds (resourceExternalUpdate w ctx d hist).events = [c1, c2] →
      c1.Args = d.program_destroy.filter (fun a => a ≠ "") ∧
      c2.Args = d.program.filter (fun a => a ≠ "")) := by
  refine ⟨fun cmd o h => resourceExternalUpdate_env w ctx d hist cmd o h, ?_⟩
  intro c1 c2 h
  rcases resourceExternalUpdate_shape w ctx d hist with ⟨_, hr⟩ | ⟨_, d1, h1, hd1, _, _, he⟩
  · rw [hr] at h
    rcases runProgram_startedCmds w (ctx.WithValue "tf_action" "update") "destroy" d hist with
      h0 | ⟨c, o, _, h0⟩
    · rw [h0] at h; cases h
    · rw [h0] at h; cases h
  · rw [he, startedCmds_append] at h
    rcases runProgram_startedCmds w (ctx.WithValue "tf_action" "update") "destroy" d hist with
      h0 | ⟨c, o, hm, h0⟩
    · rw [h0] at h
      rcases runProgram_startedCmds w (ctx.WithValue "tf_action" "update") "" d1 h1 with
        h2 | ⟨c', o', _, h2⟩
      · rw [h2] at h; cases h
      · rw [h2] at h; cases h
    · rw [h0] at h
      rcases runProgram_startedCmds w (ctx.WithValue "tf_action" "update") "" d1 h1 with
        h2 | ⟨c', o', hm', h2⟩
      · rw [h2] at h; cases h
      · rw [h2] at h
        simp only [List.singleton_append, List.cons.injEq, and_true] at h
        obtain ⟨rfl, rfl⟩ := h
        have hA := (runProgram_start _ _ _ _ _ _ _ hm).1
        have hB := (runProgram_start _ _ _ _ _ _ _ hm').1
        rw [getList_destroy] at hA
        rw [getList_plain, hd1,
          (runProgram_config w (ctx.WithValue "tf_action" "update") "destroy" d hist).1] at hB
        exact ⟨hA, hB⟩

/-- C5 amended, at a concrete input: destroy program `one`, normal program
`cat`. -/
theorem resourceExternalUpdate_actions_witness :
    (∀ cmd o, Event.start cmd o ∈
        (resourceExternalUpdate demoWorld hostContext (demoData ["cat"] [] ["one"]) []).events →
      cmd.Env = some ["PATH=/bin", "TF_EXTERNAL_ACTION=update"]) ∧
    (∃ c1 c2, startedCmds
        (resourceExternalUpdate demoWorld hostContext (demoData ["cat"] [] ["one"]) []).events =
          [c1, c2] ∧ c1.Args = ["one"] ∧ c2.Args = ["cat"]) :=
  have h := resourceExternalUpdate_actions demoWorld hostContext
    (demoData ["cat"] [] ["one"]) []
  have hs : startedCmds
      (resourceExternalUpdate demoWorld hostContext (demoData ["cat"] [] ["one"]) []).events =
      [{ Path := "/bin/one", Args := ["one"],
         Env := some ["PATH=/bin", "TF_EXTERNAL_ACTION=update"], Dir := "",
         Stdin := "\x7b\x7d", Err := none },
       { Path := "/bin/cat", Args := ["cat"],
         Env := some ["PATH=/bin", "TF_EXTERNAL_ACTION=update"], Dir := "",
         Stdin := "\x7b\x7d", Err := none }] := by decide
  ⟨h.1, ⟨_, _, hs, (h.2 _ _ hs).1.trans (by decide), (h.2 _ _ hs).2.trans (by decide)⟩⟩

/-! ## C6: the resource data after a failure -/

/-- C6, as stated, fails: an update whose destroy-variant program `one`
succeeds and whose normal-variant program `boom` then fails returns an error
diagnostic, and yet `result` and the id are no longer what they were: they
hold the output of the destroy-variant program. -/
theorem resourceExternalUpdate_partial_counterexample :
    (resourceExternalUpdate demoWorld hostContext (demoData ["boom"] [] ["one"]) []).diags.HasError
      = true ∧
    (demoData ["boom"] [] ["one"]).result = [] ∧
    (demoData ["boom"] [] ["one"]).id = "" ∧
    (resourceExternalUpdate demoWorld hostContext (demoData ["boom"] [] ["one"]) []).d.result =
      [("x", "1")] ∧
    (resourceExternalUpdate demoWorld hostContext (demoData ["boom"] [] ["one"]) []).d.id = "-" := by
  decide

/-- C6, amended. For data-source read, resource create and resource delete, a
call that returns a diagnostic leaves the resource data, `result` and id
included, exactly as it was, and so does a resource update that returns a
diagnostic when its destroy-variant step returned a diagnostic or started no
command. A call of any of the four operations that returns no diagnostic after
starting a command has set the id and has stored in `result`, with `d.Set`,
the decoded standard output of one command it started: `result` holds exactly
the members of that output that are not named `%` or `#`. -/
theorem outcome_all_or_nothing (w : World) (ctx : Context) (d : ResourceData)
    (hist : List Event) :
    (∀ out, (out = dataSourceRead w ctx d hist ∨ out = resourceExternalCreate w ctx d hist ∨
        out = resourceExternalDelete w ctx d hist) →
      (out.diags ≠ [] → out.d = d) ∧
      (out.diags = [] → ∀ cmd o, Event.start cmd o ∈ out.events →
        ∃ m, jsonUnmarshal o.stdout = .ok m ∧ out.d = (d.Set "result" m).SetId "-" ∧
          out.d.result = m.filter (fun p => decide (p.1 ≠ "%") && decide (p.1 ≠ "#")))) ∧
    ((resourceExternalUpdate w ctx d hist).diags ≠ [] →
      ((runProgram w (ctx.WithValue "tf_action" "update") "destroy" d hist).diags ≠ [] ∨
        ∀ cmd o, Event.start cmd o ∉
          (runProgram w (ctx.WithValue "tf_action" "update") "destroy" d hist).events) →
      (resourceExternalUpdate w ctx d hist).d = d) ∧
    ((resourceExternalUpdate w ctx d hist).diags = [] →
      (∃ cmd o, Event.start cmd o ∈ (resourceExternalUpdate w ctx d hist).events) →
      ∃ cmd o m, Event.start cmd o ∈ (resourceExternalUpdate w ctx d hist).events ∧
        jsonUnmarshal o.stdout = .ok m ∧
        (resourceExternalUpdate w ctx d hist).d = (d.Set "result" m).SetId "-" ∧
        (resourceExternalUpdate w ctx d hist).d.result =
          m.filter (fun p => decide (p.1 ≠ "%") && decide (p.1 ≠ "#"))) := by
  have single : ∀ (c : Context) (kind : String),
      ((runProgram w c kind d hist).diags ≠ [] → (runProgram w c kind d hist).d = d) ∧
      ((runProgram w c kind d hist).diags = [] → ∀ cmd o,
        Event.start cmd o ∈ (runProgram w c kind d hist).events →
        ∃ m, jsonUnmarshal o.stdout = .ok m ∧
          (runProgram w c kind d hist).d = (d.Set "result" m).SetId "-" ∧
          (runProgram w c kind d hist).d.result =
            m.filter (fun p => decide (p.1 ≠ "%") && decide (p.1 ≠ "#"))) :=
    fun c kind => ⟨runProgram_d_of_diags w c kind d hist,
      fun hd cmd o h =>
        match runProgram_result_of_start w c kind d hist cmd o h hd with
        | ⟨m, hu, hres⟩ => ⟨m, hu, hres, by rw [hres]; rfl⟩⟩
  refine ⟨?_, ?_, ?_⟩
  · rintro out (rfl | rfl | rfl)
    · exact single ctx ""
    · exact single (ctx.WithValue "tf_action" "create") ""
    · exact single (ctx.WithValue "tf_action" "delete") "destroy"
  · intro hne hfirst
    rcases resourceExternalUpdate_shape w ctx d hist with ⟨h1, hr⟩ | ⟨h0, d1, h1, hd1, hdi, hda, _⟩
    · rw [hr]
      exact runProgram_d_of_diags _ _ _ _ _ h1
    · rcases hfirst with hf | hf
      · exact absurd h0 hf
      · have hsame := runProgram_d_of_no_start _ _ _ _ _ hf
        rw [hsame] at hd1
        subst hd1
        rw [hda]
        rw [hdi] at hne
        exact runProgram_d_of_diags _ _ _ _ _ hne
  · intro hnil hex
    rcases resourceExternalUpdate_shape w ctx d hist with ⟨h1, hr⟩ | ⟨h0, d1, h1, hd1, hdi, hda, hev⟩
    · rw [hr] at hnil
      exact absurd hnil h1
    · rw [hdi] at hnil
      rw [hda, hev]
      by_cases h2 : ∃ cmd o, Event.start cmd o ∈
          (runProgram w (ctx.WithValue "tf_action" "update") "" d1 h1).events
      · obtain ⟨cmd, o, hm⟩ := h2
        obtain ⟨m, hu, hres⟩ := runProgram_result_of_start _ _ _ _ _ _ _ hm hnil
        refine ⟨cmd, o, m, List.mem_append_right _ hm, hu, ?_⟩
        have heq : (runProgram w (ctx.WithValue "tf_action" "update") "" d1 h1).d =
            (d.Set "result" m).SetId "-" := by
          rw [hres, hd1]
          rcases (em (∃ c r, Event.start c r ∈
            (runProgram w (ctx.WithValue "tf_action" "update") "destroy" d hist).events)) with
            ⟨c, r, hc⟩ | hno
          · obtain ⟨m1, _, hres1⟩ := runProgram_result_of_start _ _ _ _ _ _ _ hc h0
            rw [hres1, ResourceData.Set_Set]
          · rw [runProgram_d_of_no_start _ _ _ _ _ (fun c r hc => hno ⟨c, r, hc⟩)]
        exact ⟨heq, by rw [heq]; rfl⟩
      · have hsame : (runProgram w (ctx.WithValue "tf_action" "update") "" d1 h1).d = d1 :=
          runProgram_d_of_no_start _ _ _ _ _ (fun c r hc => h2 ⟨c, r, hc⟩)
        obtain ⟨cmd, o, hm⟩ := hex
        rw [hev] at hm
        rcases List.mem_append.1 hm with hm1 | hm1
        · obtain ⟨m1, hu, hres1⟩ := runProgram_result_of_start _ _ _ _ _ _ _ hm1 h0
          refine ⟨cmd, o, m1, List.mem_append_left _ hm1, hu, ?_⟩
          have heq : (runProgram w (ctx.WithValue "tf_action" "update") "" d1 h1).d =
              (d.Set "result" m1).SetId "-" := by
            rw [hsame, hd1, hres1]
          exact ⟨heq, by rw [heq]; rfl⟩
        · exact absurd ⟨cmd, o, hm1⟩ h2

/-- C6 amended, at concrete inputs: a create whose program fails leaves the
resource data as it was, an update with both programs succeeding stores the
output of the normal-variant program, and a create whose program prints the
members `%` and `a` stores the member `a` alone. -/
theorem outcome_all_or_nothing_witness :
    (resourceExternalCreate demoWorld hostContext (demoData ["boom"] [] []) []).diags ≠ [] ∧
    (resourceExternalCreate demoWorld hostContext (demoData ["boom"] [] []) []).d =
      demoData ["boom"] [] [] ∧
    (resourceExternalUpdate demoWorld hostContext (demoData ["cat"] [("a", "b")] ["one"]) []).diags
      = [] ∧
    (resourceExternalUpdate demoWorld hostContext (demoData ["cat"] [("a", "b")] ["one"]) []).d.result
      = [("a", "b")] ∧
    (resourceExternalCreate demoWorld hostContext (demoData ["percent"] [] []) []).diags = [] ∧
    (resourceExternalCreate demoWorld hostContext (demoData ["percent"] [] []) []).d.result =
      [("a", "y")] :=
  have hne : (resourceExternalCreate demoWorld hostContext (demoData ["boom"] [] []) []).diags ≠ [] :=
    by decide
  ⟨hne,
    ((outcome_all_or_nothing demoWorld hostContext (demoData ["boom"] [] []) []).1 _
      (Or.inr (Or.inl rfl))).1 hne,
    by decide, by decide, by decide, by decide⟩

/-! ## C7: a program that fails -/

/-- C7. Program failure. When the command `runProgram` started ended in an
`*exec.ExitError` holding the standard error text `s` and the exit state `st`,
`runProgram` returns exactly one diagnostic and leaves the resource data as it
was. The diagnostic has severity Error and summary `External Program Execution
Failed`, is attributed to the variant-qualified program attribute, and its
detail contains the program path and the exit state. When `s` is not empty the
detail contains `s` verbatim; when `s` is empty the diagnostic is the one
saying that the program returned no additional error messaging. -/
theorem runProgram_exit_failure (w : World) (ctx : Context) (kind : String)
    (d : ResourceData) (hist : List Event) (cmd : Cmd) (so s st : String)
    (h : Event.start cmd { stdout := so, err := some (RunError.exitError s st) } ∈
      (runProgram w ctx kind d hist).events) :
    (runProgram w ctx kind d hist).d = d ∧
    ∃ x, (runProgram w ctx kind d hist).diags = [x] ∧
      x.severity = Severity.Error ∧
      x.summary = "External Program Execution Failed" ∧
      x.attributePath = "program" ++ attrSuffix kind ∧
      containsText x.detail cmd.Path ∧
      containsText x.detail st ∧
      (s ≠ "" → containsText x.detail s ∧
        x.detail = executionDetail ++ ("\n\nProgram: " ++ cmd.Path) ++
          ("\nError Message: " ++ s) ++ ("\nState: " ++ st)) ∧
      (s = "" → x.detail = executionDetail ++ "\n\n" ++
        "The program was executed, however it returned no additional error messaging." ++
        ("\n\nProgram: " ++ cmd.Path) ++ ("\nState: " ++ st)) := by
  obtain ⟨_, _, _, _, hdi, hda, _⟩ := runProgram_start _ _ _ _ _ _ _ h
  rw [hdi, hda]
  refine ⟨rfl, ?_⟩
  by_cases hs : s = ""
  · refine ⟨exitSilentDiag ("program" ++ attrSuffix kind) cmd.Path st, ?_, rfl, rfl, rfl,
      ?_, ?_, fun hne => absurd hs hne, fun _ => rfl⟩
    · simp only [outputDiags, length_zero_of_eq s hs, if_false]
    · exact containsText_of_eq _ _ (executionDetail ++ "\n\n" ++
        "The program was executed, however it returned no additional error messaging." ++
        "\n\nProgram: ") ("\nState: " ++ st)
        (by simp only [exitSilentDiag, String.append_assoc, String.append_empty])
    · exact containsText_of_eq _ _ (executionDetail ++ "\n\n" ++
        "The program was executed, however it returned no additional error messaging." ++
        ("\n\nProgram: " ++ cmd.Path) ++ "\nState: ") ""
        (by simp only [exitSilentDiag, String.append_assoc, String.append_empty])
  · refine ⟨exitDiag ("program" ++ attrSuffix kind) cmd.Path s st, ?_, rfl, rfl, rfl,
      ?_, ?_, fun _ => ⟨?_, rfl⟩, fun he => absurd he hs⟩
    · simp only [outputDiags, length_pos_of_ne s hs, if_true]
    · exact containsText_of_eq _ _ (executionDetail ++ "\n\nProgram: ")
        (("\nError Message: " ++ s) ++ ("\nState: " ++ st))
        (by simp only [exitDiag, String.append_assoc, String.append_empty])
    · exact containsText_of_eq _ _ (executionDetail ++ ("\n\nProgram: " ++ cmd.Path) ++
        ("\nError Message: " ++ s) ++ "\nState: ") ""
        (by simp only [exitDiag, String.append_assoc, String.append_empty])
    · exact containsText_of_eq _ _ (executionDetail ++ ("\n\nProgram: " ++ cmd.Path) ++
        "\nError Message: ") ("\nState: " ++ st)
        (by simp only [exitDiag, String.append_assoc, String.append_empty])

/-- C7, at a concrete input: the program `boom` writes `boom` to standard error
and exits with status 1, and the detail of the diagnostic contains `boom`. -/
theorem runProgram_exit_failure_witness :
    ∃ x, (runProgram demoWorld hostContext "" (demoData ["boom"] [] []) []).diags = [x] ∧
      x.summary = "External Program Execution Failed" ∧
      containsText x.detail "boom" ∧ containsText x.detail "exit status 1" ∧
      containsText x.detail "/bin/boom" :=
  have hm : Event.start
      { Path := "/bin/boom", Args := ["boom"], Env := none, Dir := "", Stdin := "\x7b\x7d",
        Err := none }
      { stdout := "", err := some (RunError.exitError "boom" "exit status 1") } ∈
      (runProgram demoWorld hostContext "" (demoData ["boom"] [] []) []).events := by decide
  have h := runProgram_exit_failure demoWorld hostContext "" (demoData ["boom"] [] []) []
    _ "" "boom" "exit status 1" hm
  match h.2 with
  | ⟨x, h1, _, h3, _, h5, h6, h7, _⟩ => ⟨x, h1, h3, (h7 (by decide)).1, h6, h5⟩

/-! ## C8: the program that is resolved -/

/-- C8. Lookup failure. When the program list has a non-empty entry and `p0`
is the first one, the first thing `runProgram` does to the system is to search
for `p0`, nothing else is ever searched for, and a command it starts has the
non-empty entries of the list, in order, as its argument vector. When that
first search fails with the error `e`, `runProgram` stops there: no process is
started, the resource data is as it was, and the one diagnostic returned has
severity Error and summary `External Program Lookup Failed`, is attributed to
the variant-qualified program attribute, and its detail contains `p0`, the
platform identifier and `e`. -/
theorem runProgram_lookup_failure (w : World) (ctx : Context) (kind : String)
    (d : ResourceData) (hist : List Event) (p0 : String)
    (hfirst : (d.getList ("program" ++ attrSuffix kind)).find? (fun a => a ≠ "") = some p0) :
    (runProgram w ctx kind d hist).events.head? =
      some (Event.lookPath p0 (w.lookPath hist p0).1 (w.lookPath hist p0).2) ∧
    (∀ f p e, Event.lookPath f p e ∈ (runProgram w ctx kind d hist).events → f = p0) ∧
    (∀ cmd o, Event.start cmd o ∈ (runProgram w ctx kind d hist).events →
      cmd.Args = (d.getList ("program" ++ attrSuffix kind)).filter (fun a => a ≠ "") ∧
      cmd.Args.head? = some p0) ∧
    (∀ e, (w.lookPath hist p0).2 = some e →
      (runProgram w ctx kind d hist).events =
        [Event.lookPath p0 (w.lookPath hist p0).1 (some e)] ∧
      (runProgram w ctx kind d hist).d = d ∧
      ∃ x, (runProgram w ctx kind d hist).diags = [x] ∧
        x.severity = Severity.Error ∧
        x.summary = "External Program Lookup Failed" ∧
        x.attributePath = "program" ++ attrSuffix kind ∧
        containsText x.detail p0 ∧ containsText x.detail w.goos ∧
        containsText x.detail e) := by
  obtain ⟨rest, hrest⟩ := filter_of_find _ _ _ hfirst
  refine ⟨?_, ?_, ?_, ?_⟩
  · rcases runProgram_spec w ctx kind d hist with
      ⟨h0, _⟩ | ⟨_, h0, _⟩ | ⟨q0, args, e, hf, hl, hr⟩ | ⟨q0, args, c, pre, e, hf, hl, _, _, hr⟩ |
      ⟨q0, args, c, pre, hf, hl, _, _, _, _, _, hr⟩
    · rw [h0] at hfirst; simp at hfirst
    · rw [hrest] at h0; cases h0
    · rw [hrest] at hf; cases hf
      rw [hr, hl]; rfl
    · exact runProgram_first_event w ctx kind d hist p0 rest hrest
    · exact runProgram_first_event w ctx kind d hist p0 rest hrest
  · intro f p e h
    have := runProgram_lookup_file _ _ _ _ _ _ _ _ h
    rw [hfirst] at this
    cases this
    rfl
  · intro cmd o h
    have hA := (runProgram_start _ _ _ _ _ _ _ h).1
    refine ⟨hA, ?_⟩
    rw [hA, hrest]; rfl
  · intro e he
    rcases runProgram_spec w ctx kind d hist with
      ⟨h0, _⟩ | ⟨_, h0, _⟩ | ⟨q0, args, e2, hf, hl, hr⟩ | ⟨q0, args, c, pre, e2, hf, hl, _⟩ |
      ⟨q0, args, c, pre, hf, hl, _⟩
    · rw [h0] at hfirst; simp at hfirst
    · rw [hrest] at h0; cases h0
    · rw [hrest] at hf; cases hf
      rw [he] at hl; cases hl
      rw [hr]
      refine ⟨rfl, rfl, lookupDiag ("program" ++ attrSuffix kind) w.goos p0 e, rfl, rfl, rfl,
        rfl, ?_, ?_, ?_⟩
      · exact containsText_of_eq _ _ (lookupDetail ++ ("\nPlatform: " ++ w.goos) ++ "\nProgram: ")
          ("\nError: " ++ e)
          (by simp only [lookupDiag, String.append_assoc, String.append_empty])
      · exact containsText_of_eq _ _ (lookupDetail ++ "\nPlatform: ")
          (("\nProgram: " ++ p0) ++ ("\nError: " ++ e))
          (by simp only [lookupDiag, String.append_assoc, String.append_empty])
      · exact containsText_of_eq _ _ (lookupDetail ++ ("\nPlatform: " ++ w.goos) ++
          ("\nProgram: " ++ p0) ++ "\nError: ") ""
          (by simp only [lookupDiag, String.append_assoc, String.append_empty])
    · rw [hrest] at hf; cases hf
      rw [he] at hl; cases hl
    · rw [hrest] at hf; cases hf
      rw [he] at hl; cases hl

/-- C8, at a concrete input: the empty entry is dropped and `missing` is not
on the search path. -/
theorem runProgram_lookup_failure_witness :
    (runProgram demoWorld hostContext "" (demoData ["", "missing", "-v"] [] []) []).events =
      [Event.lookPath "missing" "" (some "executable file not found in $PATH")] ∧
    ∃ x, (runProgram demoWorld hostContext "" (demoData ["", "missing", "-v"] [] []) []).diags
        = [x] ∧
      x.summary = "External Program Lookup Failed" ∧ x.attributePath = "program" ∧
      containsText x.detail "missing" ∧ containsText x.detail "linux" ∧
      containsText x.detail "executable file not found in $PATH" :=
  have h := (runProgram_lookup_failure demoWorld hostContext ""
    (demoData ["", "missing", "-v"] [] []) [] "missing" (by decide)).2.2.2
      "executable file not found in $PATH" (by decide)
  match h with
  | ⟨h1, _, x, h3, _, h5, h6, h7, h8, h9⟩ => ⟨h1, x, h3, h5, h6, h7, h8, h9⟩

/-! ## C9: the environment of the processes -/

/-- C9. Environment contract. With a host context that carries no `tf_action`
value, every command a data-source read starts has a nil `Env`, so the process
inherits the environment and the executor adds no `TF_EXTERNAL_ACTION` entry.
Every command a resource create starts is given the inherited environment plus
`TF_EXTERNAL_ACTION=create`, every command a resource delete starts the
inherited environment plus `TF_EXTERNAL_ACTION=delete`, and every command a
resource update starts the inherited environment plus
`TF_EXTERNAL_ACTION=update`: the value added is one of the three. -/
theorem environment_contract (w : World) (ctx : Context) (d : ResourceData)
    (hist : List Event) (hctx : ctx.Value "tf_action" = none) :
    (∀ cmd o, Event.start cmd o ∈ (dataSourceRead w ctx d hist).events → cmd.Env = none) ∧
    (∀ cmd o, Event.start cmd o ∈ (resourceExternalCreate w ctx d hist).events →
      cmd.Env = some (w.environ ++ ["TF_EXTERNAL_ACTION=create"])) ∧
    (∀ cmd o, Event.start cmd o ∈ (resourceExternalDelete w ctx d hist).events →
      cmd.Env = some (w.environ ++ ["TF_EXTERNAL_ACTION=delete"])) ∧
    (∀ cmd o, Event.start cmd o ∈ (resourceExternalUpdate w ctx d hist).events →
      cmd.Env = some (w.environ ++ ["TF_EXTERNAL_ACTION=update"])) := by
  refine ⟨?_, ?_, ?_, ?_⟩
  · intro cmd o h
    rw [(runProgram_start w ctx "" d hist cmd o h).2.1, envOf_none w ctx hctx]
  · intro cmd o h
    rw [(runProgram_start w (ctx.WithValue "tf_action" "create") "" d hist cmd o h).2.1,
      envOf_withValue w ctx "create" (by decide)]
    rfl
  · intro cmd o h
    rw [(runProgram_start w (ctx.WithValue "tf_action" "delete") "destroy" d hist cmd o h).2.1,
      envOf_withValue w ctx "delete" (by decide)]
    rfl
  · intro cmd o h
    exact resourceExternalUpdate_env w ctx d hist cmd o h

/-- C9, at concrete inputs: the environments of the commands started by a
read, a create and a delete. -/
theorem environment_contract_witness :
    (startedCmds (dataSourceRead demoWorld hostContext (demoData ["cat"] [] ["one"]) []).events).map
      (fun c => c.Env) = [none] ∧
    (startedCmds
      (resourceExternalCreate demoWorld hostContext (demoData ["cat"] [] ["one"]) []).events).map
      (fun c => c.Env) = [some ["PATH=/bin", "TF_EXTERNAL_ACTION=create"]] ∧
    (startedCmds
      (resourceExternalDelete demoWorld hostContext (demoData ["cat"] [] ["one"]) []).events).map
      (fun c => c.Env) = [some ["PATH=/bin", "TF_EXTERNAL_ACTION=delete"]] ∧
    (∀ cmd o, Event.start cmd o ∈
        (dataSourceRead demoWorld hostContext (demoData ["cat"] [] ["one"]) []).events →
      cmd.Env = none) :=
  ⟨by decide, by decide, by decide,
    (environment_contract demoWorld hostContext (demoData ["cat"] [] ["one"]) []
      (by decide)).1⟩

/-! ## C10: an entity without a destroy variant -/

/-- C10. Unconfigured destroy variant. When `program_destroy` is empty, the
destroy-variant step returns no diagnostic, interacts with the system in no
way and leaves the resource data as it was, so resource delete is a no-op that
succeeds; and resource update is exactly the normal-variant call made with the
action `update`: it returns that call's outcome, and every command it starts
has the non-empty entries of `program` as its argument vector and is given
`TF_EXTERNAL_ACTION=update`. -/
theorem destroy_unconfigured (w : World) (ctx : Context) (d : ResourceData)
    (hist : List Event) (h : d.program_destroy = []) :
    runProgram w ctx "destroy" d hist = { diags := [], d := d, events := [] } ∧
    resourceExternalDelete w ctx d hist = { diags := [], d := d, events := [] } ∧
    resourceExternalUpdate w ctx d hist =
      runProgram w (ctx.WithValue "tf_action" "update") "" d hist ∧
    (∀ cmd o, Event.start cmd o ∈ (resourceExternalUpdate w ctx d hist).events →
      cmd.Args = d.program.filter (fun a => a ≠ "") ∧
      cmd.Env = some (w.environ ++ ["TF_EXTERNAL_ACTION=update"])) := by
  have key : ∀ c : Context,
      runProgram w c "destroy" d hist = { diags := [], d := d, events := [] } := by
    intro c
    rcases runProgram_spec w c "destroy" d hist with
      ⟨_, hr⟩ | ⟨h0, _, _⟩ | ⟨p0, args, e, hf, _⟩ | ⟨p0, args, cm, pre, e, hf, _⟩ |
      ⟨p0, args, cm, pre, hf, _⟩
    · exact hr
    · exact absurd (by rw [getList_destroy]; exact h) h0
    · rw [getList_destroy, h] at hf; cases hf
    · rw [getList_destroy, h] at hf; cases hf
    · rw [getList_destroy, h] at hf; cases hf
  have hup : resourceExternalUpdate w ctx d hist =
      runProgram w (ctx.WithValue "tf_action" "update") "" d hist := by
    rw [resourceExternalUpdate_of_ok w ctx d hist (by rw [key])]
    rw [key]
    simp
  refine ⟨key ctx, by unfold resourceExternalDelete; exact key _, hup, ?_⟩
  intro cmd o hm
  refine ⟨?_, resourceExternalUpdate_env w ctx d hist cmd o hm⟩
  rw [hup] at hm
  have hA := (runProgram_start _ _ _ _ _ _ _ hm).1
  rw [getList_plain] at hA
  exact hA

/-- C10, at a concrete input: without a destroy program, delete does nothing
and update starts `cat` alone, with the action `update`. -/
theorem destroy_unconfigured_witness :
    resourceExternalDelete demoWorld hostContext (demoData ["cat"] [("a", "b")] []) [] =
      { diags := [], d := demoData ["cat"] [("a", "b")] [], events := [] } ∧
    (startedCmds
      (resourceExternalUpdate demoWorld hostContext (demoData ["cat"] [("a", "b")] []) []).events).map
      (fun c => (c.Args, c.Env)) =
      [(["cat"], some ["PATH=/bin", "TF_EXTERNAL_ACTION=update"])] ∧
    resourceExternalUpdate demoWorld hostContext (demoData ["cat"] [("a", "b")] []) [] =
      runProgram demoWorld (hostContext.WithValue "tf_action" "update") ""
        (demoData ["cat"] [("a", "b")] []) [] :=
  have h := destroy_unconfigured demoWorld hostContext (demoData ["cat"] [("a", "b")] []) []
    (by decide)
  ⟨h.2.1, by decide, h.2.2.1⟩

end ExternalProvider
